import Mathlib

/-!
# UAForge core: a shallow embedding with verified properties

This file embeds the core of the UAForge user-agent generator
(`uaforge/core/alias_sampler.py`, `uaforge/core/generator.py`,
`uaforge/core/versioning.py`, `uaforge/core/client_hints.py`,
`uaforge/models/objects.py`, `uaforge/models/enums.py`,
`uaforge/data/loader.py`) into Lean and proves properties of the
embedded definitions.

Conventions of the embedding:

* Python machine floats are modelled as exact rationals (`ℚ`).
* Python dictionaries loaded from the JSON catalog are modelled as total
  lookup functions with the same default values the code uses
  (`dict.get(key, [])` becomes a function returning a list).
* `random.Random` is modelled by `RandGen`: an abstract deterministic
  stream of integer and rational draws together with a position counter.
  Each drawing primitive reads the stream at the current position and
  advances the counter.  Only determinism of the stream is relied upon;
  the concrete Mersenne-Twister outputs are abstracted.
* Fallible Python operations return `Except PyErr`; an uncaught Python
  exception is an `Except.error` value.  A Python call that passes a
  keyword argument the callee does not declare raises `TypeError` at
  call-binding time; such call sites are embedded through an explicit
  keyword-binding check (see `callSample`).
-/

namespace UAForge

/-- Uncaught Python exceptions relevant to the embedded code. -/
inductive PyErr where
  | typeError (msg : String)
  | valueError (msg : String)
  | indexError (msg : String)
deriving DecidableEq, Repr

/-- `uaforge/models/enums.py` `DeviceType`. -/
inductive DeviceType where
  | DESKTOP
  | MOBILE
  | TABLET
deriving DecidableEq, Repr

/-- `uaforge/models/enums.py` `OSType`. -/
inductive OSType where
  | WINDOWS
  | MACOS
  | LINUX
  | ANDROID
  | IOS
  | CHROME_OS
  | UNKNOWN
deriving DecidableEq, Repr

/-- `uaforge/models/enums.py` `BrowserFamily`. -/
inductive BrowserFamily where
  | CHROME
  | FIREFOX
  | SAFARI
  | EDGE
  | OPERA
  | UNKNOWN
deriving DecidableEq, Repr

/-- The `.value` string of a `BrowserFamily` member (it is a `str` enum). -/
def BrowserFamily.value : BrowserFamily → String
  | .CHROME => "chrome"
  | .FIREFOX => "firefox"
  | .SAFARI => "safari"
  | .EDGE => "edge"
  | .OPERA => "opera"
  | .UNKNOWN => "unknown"

/-- The inverse direction `OSType(os_key)` used by `_resolve_os`:
a string that is a member value maps to its member, anything else is
handled by the `_value2member_map_` guard and becomes `UNKNOWN`. -/
def osTypeOfString (s : String) : OSType :=
  if s = "windows" then .WINDOWS
  else if s = "macos" then .MACOS
  else if s = "linux" then .LINUX
  else if s = "android" then .ANDROID
  else if s = "ios" then .IOS
  else if s = "cros" then .CHROME_OS
  else .UNKNOWN

/-- Model of `random.Random`: two abstract draw streams plus a position.
CPython's Mersenne Twister is abstracted; only determinism matters. -/
structure RandGen where
  ints : ℕ → ℕ
  reals : ℕ → ℚ
  pos : ℕ

/-- Advance the stream position after one draw. -/
def RandGen.step (g : RandGen) : RandGen :=
  { g with pos := g.pos + 1 }

/-- `rand.randrange(n)`: uniform integer in `[0, n)`; raises `ValueError`
when the range is empty. -/
def pyRandrange (g : RandGen) (n : ℕ) : Except PyErr (ℕ × RandGen) :=
  if n = 0 then .error (.valueError "empty range for randrange()")
  else .ok (g.ints g.pos % n, g.step)

/-- `rand.random()`: one rational draw (Python guarantees `[0, 1)`;
the bound is irrelevant to the verified properties). -/
def pyRandom (g : RandGen) : ℚ × RandGen :=
  (g.reals g.pos, g.step)

/-- `rand.choice(xs)` with a default for the (guarded) empty case:
total version used where the embedding already knows `xs ≠ []`. -/
def pyChoiceD (g : RandGen) (xs : List α) (dflt : α) : α × RandGen :=
  (xs.getD (g.ints g.pos % xs.length) dflt, g.step)

/-- `rand.choice(xs)`: raises `IndexError` on an empty sequence. -/
def pyChoice (g : RandGen) (xs : List α) : Except PyErr (α × RandGen) :=
  match xs with
  | [] => .error (.indexError "Cannot choose from an empty sequence")
  | x :: _ => .ok (pyChoiceD g xs x)

/-- `rand.randint(a, b)`: uniform integer in `[a, b]`; raises on `b < a`. -/
def pyRandint (g : RandGen) (a b : ℕ) : Except PyErr (ℕ × RandGen) :=
  if b < a then .error (.valueError "empty range for randint()")
  else .ok (a + g.ints g.pos % (b - a + 1), g.step)

/-- Swap two positions of a list (helper for the shuffle model). -/
def listSwap (xs : List α) (i j : ℕ) : List α :=
  match xs.get? i, xs.get? j with
  | some a, some b => (xs.set i b).set j a
  | _, _ => xs

/-- Fisher–Yates walk of `rand.shuffle`: for `i` from `len-1` down to `1`,
draw `j` in `[0, i]` and swap positions `i` and `j`. -/
def pyShuffleAux (g : RandGen) (xs : List α) : ℕ → List α × RandGen
  | 0 => (xs, g)
  | i + 1 =>
      let j := g.ints g.pos % (i + 2)
      pyShuffleAux g.step (listSwap xs (i + 1) j) i

/-- `rand.shuffle(xs)` (as a pure function returning the permuted list). -/
def pyShuffle (g : RandGen) (xs : List α) : List α × RandGen :=
  pyShuffleAux g xs (xs.length - 1)

/-- `random.Random(seed)`: a fresh isolated generator that is a fixed
deterministic function of the seed (the Mersenne-Twister stream is
abstracted as an unspecified injective-enough mixing function). -/
def mkRandom (seed : ℕ) : RandGen :=
  ⟨fun i => (seed + i) * 2654435761 % 4294967296, fun _ => 0, 0⟩

/-- Python's `str.split(sep)` for a one-character separator, on the
character list of the string. -/
def splitCh (c : Char) : List Char → List (List Char)
  | [] => [[]]
  | x :: xs =>
      if x = c then [] :: splitCh c xs
      else
        match splitCh c xs with
        | h :: t => (x :: h) :: t
        | [] => [[x]]

/-- Python `s.split(sep)[0]` for the dot separator (used for the major
component; `split` always returns at least one piece). -/
def pySplitHead (s : String) : String :=
  String.mk ((splitCh '.' s.data).headD [])

/-- Python `", ".join(parts)`. -/
def pyJoin (sep : String) : List String → String
  | [] => ""
  | [x] => x
  | x :: y :: t => x ++ sep ++ pyJoin sep (y :: t)

/-- Python `int(s)` restricted to an optional sign followed by decimal
digits (whitespace and underscore forms do not occur in this data);
`none` models the `ValueError`. -/
def digitsToNat : List Char → Option ℕ
  | [] => none
  | l =>
      l.foldl
        (fun acc c =>
          acc.bind fun a => if c.isDigit then some (a * 10 + (c.toNat - 48)) else none)
        (some 0)

/-- Python `int(s)` on a string, producing an integer or a `ValueError`. -/
def pyStrToInt (s : String) : Option ℤ :=
  match s.data with
  | '-' :: ds => (digitsToNat ds).map (fun n => -(n : ℤ))
  | '+' :: ds => (digitsToNat ds).map (fun n => (n : ℤ))
  | ds => (digitsToNat ds).map (fun n => (n : ℤ))

/-- Python truthiness of an `Optional[str]`: `None` and `""` are falsy. -/
def strOptTruthy : Option String → Bool
  | some m => m ≠ ""
  | none => false

/-! ## `uaforge/core/alias_sampler.py` — `AliasSampler`

The constructor builds the two Vose alias-method arrays.  The work array
`prob` (scaled weights, mutated in place) is `pw` below, the final
`self.prob` array is `pf`, and `self.alias` is `al`; arrays are modelled
as total functions out of `ℕ` updated pointwise.  The Python stacks
`small` / `large` pop and append at the right end; they are represented
head-first (head of the Lean list = Python's last element), so the
initial ascending fill appears reversed. -/

/-- The trailing `while large` / `while small` loops: every remaining
index gets final probability 1. -/
def finalizeOnes (pf : ℕ → ℚ) : List ℕ → (ℕ → ℚ)
  | [] => pf
  | i :: is => finalizeOnes (Function.update pf i 1) is

/-- The main `while small and large` loop of `AliasSampler.__init__`,
with a fuel parameter (each iteration shrinks `|small| + |large|` by
one, so fuel `n` suffices for the initial call). -/
def voseLoop : ℕ → (ℕ → ℚ) → (ℕ → ℚ) → (ℕ → ℕ) → List ℕ → List ℕ →
    ((ℕ → ℚ) × (ℕ → ℕ))
  | 0, _, pf, al, small, large => (finalizeOnes pf (small ++ large), al)
  | fuel + 1, pw, pf, al, l :: s, g :: L =>
      if pw g + pw l - 1 < 1 then
        voseLoop fuel (Function.update pw g (pw g + pw l - 1))
          (Function.update pf l (pw l)) (Function.update al l g) (g :: s) L
      else
        voseLoop fuel (Function.update pw g (pw g + pw l - 1))
          (Function.update pf l (pw l)) (Function.update al l g) s (g :: L)
  | _ + 1, _, pf, al, small, [] => (finalizeOnes pf small, al)
  | _ + 1, _, pf, al, [], large => (finalizeOnes pf large, al)

/-- The alias-table part of a constructed sampler. -/
structure AliasTable where
  n : ℕ
  prob : ℕ → ℚ
  aliasArr : ℕ → ℕ

/-- A constructed `AliasSampler`: the table plus the stored `self.rng`. -/
structure AliasSampler where
  table : AliasTable
  rng : RandGen

/-- The scaled weight vector `prob[i] = weight[i] * n / total`. -/
def scaledWeights (w : List ℚ) : ℕ → ℚ :=
  fun i => w.getD i 0 * w.length / w.sum

/-- The alias-table construction, assuming the validity checks passed. -/
def buildAliasTable (w : List ℚ) : AliasTable :=
  let n := w.length
  let scaled := scaledWeights w
  let smallInit := ((List.range n).filter (fun i => decide (scaled i < 1))).reverse
  let largeInit := ((List.range n).filter (fun i => !decide (scaled i < 1))).reverse
  let r := voseLoop n scaled (fun _ => 0) (fun _ => 0) smallInit largeInit
  ⟨n, r.1, r.2⟩

/-- `AliasSampler.__init__(weights, rng)`: empty weights and non-positive
total raise `ValueError` (the spec's ConfigurationError kind). -/
def mkAliasSampler (w : List ℚ) (rng : RandGen) : Except PyErr AliasSampler :=
  if w.length = 0 then
    .error (.valueError "Cannot create AliasSampler with empty weights")
  else if w.sum ≤ 0 then
    .error (.valueError "Sum of weights must be positive")
  else
    .ok ⟨buildAliasTable w, rng⟩

/-- The pure part of `AliasSampler.sample`: given the fair-die index and
the biased-coin value, return the sampled index. -/
def AliasTable.sampleIdx (t : AliasTable) (die : ℕ) (coin : ℚ) : ℕ :=
  if coin < t.prob die then die else t.aliasArr die

/-- `AliasSampler.sample(self)`: one `randrange` draw and one `random()`
draw from the sampler's own stored `self.rng`. -/
def AliasSampler.sample (s : AliasSampler) : Except PyErr (ℕ × AliasSampler) := do
  let (i, g1) ← pyRandrange s.rng s.table.n
  let (c, g2) := pyRandom g1
  .ok (s.table.sampleIdx i c, { s with rng := g2 })

/-! ## `uaforge/core/generator.py` — session seeds -/

/-- `UserAgentGenerator._session_to_seed` on the stringified key:
`h = self.seed`, then for each character
`h = (h * 31 + ord(char)) & 0x7FFFFFFF`. -/
def sessionToSeed (seed : ℕ) (sessionStr : String) : ℕ :=
  sessionStr.data.foldl (fun h c => (h * 31 + c.toNat) &&& 0x7FFFFFFF) seed

/-- Modelled from the spec: the sub-seed recurrence exactly as the spec
words it, `h = (h*31 + charCode) mod (2^31 - 1)`, for comparison with
the source's `sessionToSeed`. -/
def sessionToSeedSpec (seed : ℕ) (sessionStr : String) : ℕ :=
  sessionStr.data.foldl (fun h c => (h * 31 + c.toNat) % (2 ^ 31 - 1)) seed

/-- A session argument: `str` or `int` (the `None` case is the caller's
`Option`). -/
inductive SessionKey where
  | str (s : String)
  | int (n : ℤ)
deriving DecidableEq, Repr

/-- Python `str(session)`. -/
def pyStrOfSession : SessionKey → String
  | .str s => s
  | .int n => toString n

/-- `_session_to_seed` including the `None` guard. -/
def session_to_seed (seed : ℕ) : Option SessionKey → Option ℕ
  | none => none
  | some s => some (sessionToSeed seed (pyStrOfSession s))

/-! ## `uaforge/data/loader.py` — the loaded catalog

The JSON dictionaries are modelled as total lookup functions returning
the same defaults the `dict.get` chains use. -/

/-- One entry of an `os_templates` list. -/
structure OsTemplate where
  ua_token : String
  platform_version : Option String
  probability : ℚ
deriving DecidableEq, Repr

/-- One entry of a `desktop_weights` / `mobile_weights` list. -/
structure OsChoice where
  os : String
  platform : String
  weight : ℚ
deriving DecidableEq, Repr

/-- The loaded, immutable catalog data used on the generation path. -/
structure DataLoaderT where
  get_chrome_versions : String → String → List String
  get_edge_versions : String → String → List String
  get_opera_versions : String → String → List String
  chromium_by_major : String → List String
  get_os_template : String → List OsTemplate
  get_device_models : String → List String

/-- `DataLoader.get_chromium_version_for_edge`: Edge and Chromium share
the major; return the first recorded version or `None`. -/
def DataLoaderT.get_chromium_version_for_edge (ld : DataLoaderT)
    (edge_major : String) : Option String :=
  match ld.chromium_by_major edge_major with
  | [] => none
  | v :: _ => some v

/-- `DataLoader.get_chromium_version_for_opera`: Opera major + 16 is the
Chromium major; an unparsable major is the caught `ValueError` path. -/
def DataLoaderT.get_chromium_version_for_opera (ld : DataLoaderT)
    (opera_major : String) : Option String :=
  match pyStrToInt opera_major with
  | none => none
  | some k =>
      match ld.chromium_by_major (toString (k + 16)) with
      | [] => none
      | v :: _ => some v

/-- A loader with no optional historical version data at all. -/
def emptyLoader : DataLoaderT :=
  ⟨fun _ _ => [], fun _ _ => [], fun _ _ => [], fun _ => [], fun _ => [],
    fun _ => []⟩

/-! ## `uaforge/core/versioning.py` — `VersionExpander` -/

namespace VersionExpander

/-- `VersionExpander._get_chrome_version` (the generator always passes a
loader; the `try`/`except` body is the `match`, the `except` arm is the
synthesized fallback, which is also returned when no version is
recorded). -/
def get_chrome_version (major_version : String) (platform : Option String)
    (g : RandGen) (ld : DataLoaderT) : String × RandGen :=
  let platform2 := platform.getD "windows"
  match ld.get_chrome_versions major_version platform2 with
  | [] => (major_version ++ ".0.0.0", g)
  | v :: t => pyChoiceD g (v :: t) v

/-- `VersionExpander._get_edge_version`. -/
def get_edge_version (major_version : String) (platform : Option String)
    (g : RandGen) (ld : DataLoaderT) : String × RandGen :=
  let platform2 := platform.getD "windows"
  match ld.get_edge_versions major_version platform2 with
  | [] => (major_version ++ ".0.0.0", g)
  | v :: t => pyChoiceD g (v :: t) v

/-- `VersionExpander._get_opera_version`. -/
def get_opera_version (major_version : String) (platform : Option String)
    (g : RandGen) (ld : DataLoaderT) : String × RandGen :=
  let platform2 := platform.getD "windows"
  match ld.get_opera_versions major_version platform2 with
  | [] => (major_version ++ ".0.0.0", g)
  | v :: t => pyChoiceD g (v :: t) v

/-- `VersionExpander.generate_full_version`.  The early return for an
already-dotted version is the nested `if "." in v` / `if len(parts) > 1`
pair, rendered as a conjunction.  The `Except` result records that the
function can only return normally: no branch produces an error. -/
def generate_full_version (family : BrowserFamily) (major_version : String)
    (g : RandGen) (platform : Option String) (ld : DataLoaderT) :
    Except PyErr (String × RandGen) :=
  if major_version.data.contains '.' ∧ 1 < (splitCh '.' major_version.data).length then
    .ok (major_version, g)
  else
    match family with
    | .CHROME => .ok (get_chrome_version major_version platform g ld)
    | .EDGE => .ok (get_edge_version major_version platform g ld)
    | .OPERA => .ok (get_opera_version major_version platform g ld)
    | .FIREFOX => .ok (major_version ++ ".0", g)
    | .SAFARI => .ok (major_version, g)
    | .UNKNOWN => .ok (major_version ++ ".0", g)

end VersionExpander

/-! ## `uaforge/core/client_hints.py` — `ClientHintsGenerator` -/

namespace ClientHintsGenerator

/-- `GREASE_BRAND = list("Not A Brand")`. -/
def GREASE_BRAND : List Char := "Not A Brand".data

/-- `PUNCT = ";:()_ "`. -/
def PUNCT : List Char := ";:()_ ".data

/-- `ClientHintsGenerator._format_brand_list`. -/
def format_brand_list (brands : List (String × String)) : String :=
  pyJoin ", " (brands.map (fun bv => "\"" ++ bv.1 ++ "\";v=\"" ++ bv.2 ++ "\""))

/-- `ClientHintsGenerator._get_brand_tuples`: the randomized GREASE
construction (separator slots filled from `PUNCT`, decoy version from
99/8/24, final order shuffled).  Not invoked on the generation path. -/
def get_brand_tuples (family : BrowserFamily) (version : String) (g : RandGen) :
    List (String × String) × RandGen :=
  let name := GREASE_BRAND
  let space_idxs := (List.range name.length).filter
    (fun i => decide (name.getD i ' ' = ' '))
  let step1 :=
    if 2 ≤ space_idxs.length then
      let (c1, ga) := pyChoiceD g PUNCT ' '
      let (c2, gb) := pyChoiceD ga PUNCT ' '
      ((name.set (space_idxs.getD 0 0) c1).set (space_idxs.getD 1 0) c2, gb)
    else (name, g)
  let (grease_version, g2) := pyChoiceD step1.2 ["99", "8", "24"] "99"
  let brands : List (String × String) :=
    (String.mk step1.1, grease_version) ::
      (match family with
       | .CHROME => [("Chromium", version), ("Google Chrome", version)]
       | .EDGE => [("Chromium", version), ("Microsoft Edge", version)]
       | .OPERA => [("Chromium", version), ("Opera", version)]
       | _ => [("Chromium", version)])
  pyShuffle g2 brands

/-- `ClientHintsGenerator.generate_brands`: the Sec-CH-UA value built on
the generation path.  The `rand` parameter is accepted but the body
performs no random draw. -/
def generate_brands (family : BrowserFamily) (major_version : String)
    (rand : RandGen) : String :=
  if family = .FIREFOX ∨ family = .SAFARI then ""
  else
    let chromium_major : String :=
      match family with
      | .EDGE => major_version
      | .OPERA =>
          match pyStrToInt major_version with
          | some k => toString (k + 16)
          | none => major_version
      | _ => major_version
    pyJoin ", "
      ("\"Not A Brand\";v=\"99\"" ::
        (match family with
         | .CHROME => ["\"Chromium\";v=\"" ++ major_version ++ "\"",
             "\"Google Chrome\";v=\"" ++ major_version ++ "\""]
         | .EDGE => ["\"Chromium\";v=\"" ++ chromium_major ++ "\"",
             "\"Microsoft Edge\";v=\"" ++ major_version ++ "\""]
         | .OPERA => ["\"Chromium\";v=\"" ++ chromium_major ++ "\"",
             "\"Opera\";v=\"" ++ major_version ++ "\""]
         | _ => ["\"Chromium\";v=\"" ++ major_version ++ "\""]))

/-- `ClientHintsGenerator.get_major_chromium_full_version`: the resolved
underlying-engine major as an integer, `-1` when unresolvable for a
non-Chrome family; `int()` on a non-numeric component raises. -/
def get_major_chromium_full_version (family : BrowserFamily)
    (full_version : String) (ld : DataLoaderT) : Except PyErr ℤ :=
  let major := pySplitHead full_version
  let chromium_version : Option String :=
    match family with
    | .EDGE => ld.get_chromium_version_for_edge major
    | .OPERA => ld.get_chromium_version_for_opera major
    | _ => none
  match chromium_version with
  | some v =>
      if v = "" then
        if family = .CHROME then
          match pyStrToInt major with
          | some k => .ok k
          | none => .error (.valueError "invalid literal for int()")
        else .ok (-1)
      else
        match pyStrToInt (pySplitHead v) with
        | some k => .ok k
        | none => .error (.valueError "invalid literal for int()")
  | none =>
      if family = .CHROME then
        match pyStrToInt major with
        | some k => .ok k
        | none => .error (.valueError "invalid literal for int()")
      else .ok (-1)

/-- `ClientHintsGenerator.generate_full_version_list`. -/
def generate_full_version_list (family : BrowserFamily) (full_version : String)
    (ld : DataLoaderT) : Except PyErr String :=
  if family = .FIREFOX ∨ family = .SAFARI then .ok ""
  else
    let major := pySplitHead full_version
    let chromium_version : Option String :=
      match family with
      | .EDGE => ld.get_chromium_version_for_edge major
      | .OPERA => ld.get_chromium_version_for_opera major
      | _ => none
    match family with
    | .CHROME =>
        .ok (pyJoin ", " ["\"Not A Brand\";v=\"99.0.0.0\"",
          "\"Chromium\";v=\"" ++ full_version ++ "\"",
          "\"Google Chrome\";v=\"" ++ full_version ++ "\""])
    | .EDGE =>
        let chromiumPart :=
          match chromium_version with
          | some v => if v = "" then full_version else v
          | none => full_version
        .ok (pyJoin ", " ["\"Not A Brand\";v=\"99.0.0.0\"",
          "\"Chromium\";v=\"" ++ chromiumPart ++ "\"",
          "\"Microsoft Edge\";v=\"" ++ full_version ++ "\""])
    | .OPERA =>
        let fallback : Except PyErr String :=
          match pyStrToInt major with
          | none => .error (.valueError "invalid literal for int()")
          | some k =>
              .ok (pyJoin ", " ["\"Not A Brand\";v=\"99.0.0.0\"",
                "\"Chromium\";v=\"" ++ toString (k + 16) ++ ".0.0.0\"",
                "\"Opera\";v=\"" ++ full_version ++ "\""])
        (match chromium_version with
         | some v =>
            if v = "" then fallback
            else .ok (pyJoin ", " ["\"Not A Brand\";v=\"99.0.0.0\"",
              "\"Chromium\";v=\"" ++ v ++ "\"",
              "\"Opera\";v=\"" ++ full_version ++ "\""])
         | none => fallback)
    | _ =>
        .ok (pyJoin ", " ["\"Not A Brand\";v=\"99.0.0.0\"",
          "\"Chromium\";v=\"" ++ full_version ++ "\""])

/-- `ClientHintsGenerator.get_mobile_token`. -/
def get_mobile_token (is_mobile : Bool) : String :=
  if is_mobile then "?1" else "?0"

/-- `ClientHintsGenerator.get_platform_token`. -/
def get_platform_token (platform : String) : String := platform

/-- `ClientHintsGenerator.generate_full_version` (the
Sec-CH-UA-Full-Version value). -/
def generate_full_version (family : BrowserFamily) (full_version : String) :
    String :=
  if family = .FIREFOX ∨ family = .SAFARI then "" else full_version

/-- `ClientHintsGenerator.generate_form_factors` (the `rand` parameter
is accepted but unused). -/
def generate_form_factors (device_type : DeviceType) (rand : RandGen) : String :=
  match device_type with
  | .DESKTOP => "Desktop"
  | .TABLET => "Tablet"
  | .MOBILE => "Mobile"

/-- `ClientHintsGenerator.get_wow64_token`. -/
def get_wow64_token (is_wow64 : Bool) : String :=
  if is_wow64 then "?1" else "?0"

/-- `ClientHintsGenerator.get_prefers_color_scheme`. -/
def get_prefers_color_scheme (g : RandGen) : Except PyErr (String × RandGen) :=
  pyChoice g ["light", "dark"]

end ClientHintsGenerator

/-! ## `uaforge/models/objects.py` — data model -/

/-- `HardwareInfo`. -/
structure HardwareInfo where
  device_type : DeviceType
  model : Option String := none
  brand_header_value : Option String := none
  cpu_arch : String := "x86_64"
deriving DecidableEq, Repr

/-- The dictionary `_resolve_os` returns. -/
structure OsData where
  type : OSType
  platform_header : String
  ua_token : String
  platform_version : String
deriving DecidableEq, Repr

/-- `uaforge/data/loader.py` `BrowserCandidate`. -/
structure BrowserCandidate where
  family : BrowserFamily
  version : String
  device_type : DeviceType
  os_restriction : OSType
  share : ℚ
deriving DecidableEq, Repr

/-- One `_ua_metadata` entry of the generator. -/
structure UaMeta where
  family : BrowserFamily
  device : DeviceType
  version : String
deriving DecidableEq, Repr

/-- `UserAgentData` exactly as declared in `uaforge/models/objects.py`:
the legacy string, three metadata fields and eight client-hint fields
(through `ch_bitness` — the dataclass declares no further fields). -/
structure UserAgentData where
  user_agent : String
  meta_os : OSType
  meta_browser : BrowserFamily
  meta_device : DeviceType
  ch_brands : String
  ch_full_version_list : String
  ch_mobile : String
  ch_platform : String
  ch_platform_version : String
  ch_model : String
  ch_arch : String
  ch_bitness : String
deriving DecidableEq, Repr

/-- `UserAgentData.get_headers`: the minimal header map, in insertion
order; a client-hint header is included only when its field is truthy
(non-empty). -/
def UserAgentData.get_headers (d : UserAgentData) : List (String × String) :=
  [("User-Agent", d.user_agent)]
    ++ (if d.ch_brands ≠ "" then [("Sec-CH-UA", d.ch_brands)] else [])
    ++ (if d.ch_mobile ≠ "" then [("Sec-CH-UA-Mobile", d.ch_mobile)] else [])
    ++ (if d.ch_platform ≠ "" then
          [("Sec-CH-UA-Platform", "\"" ++ d.ch_platform ++ "\"")] else [])
    ++ (if d.ch_full_version_list ≠ "" then
          [("Sec-CH-UA-Full-Version-List", d.ch_full_version_list)] else [])

/-- `UserAgentData.get_all_client_hints`. -/
def UserAgentData.get_all_client_hints (d : UserAgentData) : List (String × String) :=
  (if d.ch_brands ≠ "" then [("Sec-CH-UA", d.ch_brands)] else [])
    ++ (if d.ch_mobile ≠ "" then [("Sec-CH-UA-Mobile", d.ch_mobile)] else [])
    ++ (if d.ch_platform ≠ "" then
          [("Sec-CH-UA-Platform", "\"" ++ d.ch_platform ++ "\"")] else [])
    ++ (if d.ch_full_version_list ≠ "" then
          [("Sec-CH-UA-Full-Version-List", d.ch_full_version_list)] else [])
    ++ (if d.ch_platform_version ≠ "" then
          [("Sec-CH-UA-Platform-Version", d.ch_platform_version)] else [])
    ++ (if d.ch_model ≠ "" then
          [("Sec-CH-UA-Model", "\"" ++ d.ch_model ++ "\"")] else [])
    ++ (if d.ch_arch ≠ "" then
          [("Sec-CH-UA-Arch", "\"" ++ d.ch_arch ++ "\"")] else [])
    ++ (if d.ch_bitness ≠ "" then
          [("Sec-CH-UA-Bitness", "\"" ++ d.ch_bitness ++ "\"")] else [])

/-! ## `uaforge/core/generator.py` — `UserAgentGenerator` -/

/-- `UserAgentGenerator._map_os_to_platform`. -/
def map_os_to_platform (os_type : OSType) : String :=
  if os_type = .WINDOWS then "windows"
  else if os_type = .MACOS ∨ os_type = .IOS then "macos"
  else "linux"

/-- The `(key, weight_key)` cache key derivation shared by `__init__`
and `_resolve_os` (lines 143–157). -/
def deriveOsCacheKey (family : BrowserFamily) (device : DeviceType) :
    String × String :=
  if device = .MOBILE then
    (if family = .CHROME then "and_chr"
     else if family = .FIREFOX then "and_ff"
     else if family = .SAFARI then "ios_saf"
     else if family = .OPERA then "op_mob"
     else "android", "mobile_weights")
  else (family.value, "desktop_weights")

/-- One `_os_choice_cache` entry. -/
structure OsCacheEntry where
  sampler : AliasSampler
  choices : List OsChoice

/-- The keyword parameters `AliasSampler.sample` declares: it is
`def sample(self)`, so none. -/
def sampleDeclaredKeywords : List String := []

/-- A call `sampler.sample(<keywords>)`: Python binds keyword arguments
against the declared parameters before running the body; an argument the
callee does not declare raises `TypeError`. -/
def callSample (s : AliasSampler) (passedKwargs : List String) :
    Except PyErr (ℕ × AliasSampler) :=
  if passedKwargs.all (fun k => sampleDeclaredKeywords.contains k) then s.sample
  else .error (.typeError "sample() got an unexpected keyword argument rand")

/-- `UserAgentGenerator._resolve_os`.  When the derived cache key has no
entry, the fixed Linux fallback is returned before any sampling; the
cached path calls `sample(rand=rand)`. -/
def resolve_os (osChoiceCache : String × String → Option OsCacheEntry)
    (osTemplateSamplers : String → Option AliasSampler)
    (ld : DataLoaderT) (cand : BrowserCandidate) (g : RandGen) :
    Except PyErr (OsData × RandGen) :=
  match osChoiceCache (deriveOsCacheKey cand.family cand.device_type) with
  | none =>
      .ok (⟨.LINUX, "Linux", "X11; Linux x86_64", "5.0.0"⟩, g)
  | some cached => do
      let (idx, _) ← callSample cached.sampler ["rand"]
      let selected := cached.choices.getD idx ⟨"", "", 0⟩
      let os_key := selected.os
      let platform_header := selected.platform
      match ld.get_os_template os_key with
      | [] => .ok (⟨osTypeOfString os_key, platform_header, "Unknown OS", "0.0.0"⟩, g)
      | t0 :: ts => do
          let tg ←
            (match osTemplateSamplers os_key with
             | some tsamp => do
                let (ti, _) ← callSample tsamp ["rand"]
                Except.ok ((t0 :: ts).getD ti t0, g)
             | none => pyChoice g (t0 :: ts))
          let selected_template := tg.1
          let g2 := tg.2
          let ua_token := selected_template.ua_token
          match selected_template.platform_version with
          | some pv => .ok (⟨osTypeOfString os_key, platform_header, ua_token, pv⟩, g2)
          | none =>
              if os_key = "ios" then do
                let (a, g3) ← pyRandint g2 16 17
                let (b, g4) ← pyRandint g3 0 5
                .ok (⟨osTypeOfString os_key, platform_header, ua_token,
                  toString a ++ "." ++ toString b ++ ".0"⟩, g4)
              else if os_key = "linux" then do
                let (a, g3) ← pyRandint g2 5 6
                let (b, g4) ← pyRandint g3 4 19
                .ok (⟨osTypeOfString os_key, platform_header, ua_token,
                  toString a ++ "." ++ toString b ++ ".0"⟩, g4)
              else
                .ok (⟨osTypeOfString os_key, platform_header, ua_token, "1.0.0"⟩, g2)

/-- `UserAgentGenerator._resolve_hardware`. -/
def resolve_hardware (deviceModelCache : String → List String)
    (device_type : DeviceType) (family : BrowserFamily) (g : RandGen) :
    Except PyErr (HardwareInfo × RandGen) :=
  if device_type = .DESKTOP then
    .ok (⟨.DESKTOP, none, none, "x86_64"⟩, g)
  else if family = .SAFARI then
    .ok (⟨.MOBILE, some "iPhone", some "\"iPhone\";v=\"16\"", "x86_64"⟩, g)
  else do
    let mlg ←
      (if family = .CHROME then
        let (r, ga) := pyRandom g
        if r < 3 / 10 then
          Except.ok (deviceModelCache "google_pixel", ga)
        else do
          let (cat, gb) ← pyChoice ga ["samsung", "oppo_realme_generic",
            "xiaomi_ecosystem", "google_pixel"]
          Except.ok (deviceModelCache cat, gb)
      else do
        let (cat, gb) ← pyChoice g ["samsung", "oppo_realme_generic",
          "xiaomi_ecosystem", "google_pixel"]
        Except.ok (deviceModelCache cat, gb))
    match mlg.1 with
    | [] => .ok (⟨.MOBILE, some "Generic Android", none, "arm64"⟩, mlg.2)
    | m :: t => do
        let (selected, g2) ← pyChoice mlg.2 (m :: t)
        .ok (⟨.MOBILE, some selected, none, "arm64"⟩, g2)

/-- Lines 318–331 of `generate`: Android model injection with the
Chrome-110 user-agent-reduction freeze. -/
def injectAndroidModel (device_type : DeviceType) (os_type : OSType)
    (family : BrowserFamily) (model : Option String) (os_token : String)
    (chromium_version : ℤ) : String :=
  if device_type = .MOBILE ∧ os_type = .ANDROID then
    if strOptTruthy model
        ∧ family ∈ [BrowserFamily.CHROME, BrowserFamily.EDGE, BrowserFamily.OPERA]
        ∧ 110 ≤ chromium_version then
      "Linux; Android 10; K"
    else if strOptTruthy model then
      os_token ++ "; " ++ model.getD ""
    else os_token
  else os_token

/-- `UserAgentGenerator._build_ua_string`. -/
def build_ua_string (family : BrowserFamily) (device : DeviceType)
    (os_token : String) (full_version : String) (marketing_version : String) :
    Except PyErr String :=
  match family with
  | .CHROME =>
      .ok ("Mozilla/5.0 (" ++ os_token
        ++ ") AppleWebKit/537.36 (KHTML, like Gecko) Chrome/" ++ full_version
        ++ " " ++ (if device = .MOBILE then "Mobile " else "") ++ "Safari/537.36")
  | .EDGE =>
      .ok ("Mozilla/5.0 (" ++ os_token
        ++ ") AppleWebKit/537.36 (KHTML, like Gecko) Chrome/" ++ full_version
        ++ " Safari/537.36 Edg/" ++ full_version)
  | .FIREFOX =>
      .ok ("Mozilla/5.0 (" ++ os_token ++ "; rv:" ++ full_version
        ++ ") Gecko/20100101 Firefox/" ++ full_version)
  | .SAFARI =>
      .ok ("Mozilla/5.0 ("
        ++ os_token.replace "\x7bversion\x7d" (marketing_version.replace "." "_")
        ++ ") AppleWebKit/605.1.15 (KHTML, like Gecko) Version/" ++ marketing_version
        ++ " Mobile/15E148 Safari/605.1.15")
  | .OPERA =>
      match pyStrToInt (pySplitHead full_version) with
      | none => .error (.valueError "invalid literal for int()")
      | some k =>
          .ok ("Mozilla/5.0 (" ++ os_token
            ++ ") AppleWebKit/537.36 (KHTML, like Gecko) Chrome/"
            ++ toString (k + 16) ++ ".0.0.0 Safari/537.36 OPR/" ++ full_version)
  | .UNKNOWN =>
      .ok ("Mozilla/5.0 (" ++ os_token
        ++ ") AppleWebKit/537.36 (KHTML, like Gecko) Chrome/" ++ full_version
        ++ " Safari/537.36")

/-- The client-hint values computed in lines 343–377 of `generate`. -/
structure HintValues where
  brands : String
  full_version_list : String
  mobile : String
  platform : String
  platform_version : String
  model : String
  arch : String
  bitness : String
  full_version : String
  form_factors : String
  wow64 : String
  prefers_color_scheme : String
deriving DecidableEq, Repr

/-- All-empty hint values (the Firefox/Safari branch). -/
def emptyHintValues : HintValues :=
  ⟨"", "", "", "", "", "", "", "", "", "", "", ""⟩

/-- The `ch_model` expression of `generate` (line 369): the sampled
device model is reported whenever the device is mobile and the model is
truthy, independent of the legacy-string freeze. -/
def chModelValue (device : DeviceType) (model : Option String) : String :=
  if device = .MOBILE ∧ strOptTruthy model then model.getD "" else ""

/-- Lines 343–377 of `generate`: compute all client-hint values; for a
family whose brand list is empty every value is the empty string. -/
def assembleHints (family : BrowserFamily) (marketing_version : String)
    (device : DeviceType) (osd : OsData) (hw : HardwareInfo)
    (full_version : String) (ld : DataLoaderT) (g : RandGen) :
    Except PyErr (HintValues × RandGen) := do
  let brands := ClientHintsGenerator.generate_brands family marketing_version g
  let full_version_list ←
    ClientHintsGenerator.generate_full_version_list family full_version ld
  let full_version_hint :=
    ClientHintsGenerator.generate_full_version family full_version
  if brands = "" then
    .ok ({ emptyHintValues with brands := brands }, g)
  else do
    let (scheme, g2) ← ClientHintsGenerator.get_prefers_color_scheme g
    .ok (⟨brands, full_version_list,
      ClientHintsGenerator.get_mobile_token (decide (device = .MOBILE)),
      osd.platform_header, osd.platform_version,
      chModelValue device hw.model,
      (if device = .MOBILE then "arm" else "x86"), "64", full_version_hint,
      ClientHintsGenerator.generate_form_factors device g,
      ClientHintsGenerator.get_wow64_token false, scheme⟩, g2)

/-- The state owned by one `UserAgentGenerator`. -/
structure GenState where
  seed : ℕ
  rand : RandGen
  candidateSampler : AliasSampler
  candidates : List BrowserCandidate
  uaMetadata : List UaMeta
  osChoiceCache : String × String → Option OsCacheEntry
  osTemplateSamplers : String → Option AliasSampler
  deviceModelCache : String → List String
  loader : DataLoaderT

/-- The field names `UserAgentData` declares (its `__init__` keywords). -/
def userAgentDataFieldNames : List String :=
  ["user_agent", "ch_brands", "ch_full_version_list", "ch_mobile", "ch_platform",
   "ch_platform_version", "ch_model", "ch_arch", "ch_bitness",
   "meta_os", "meta_browser", "meta_device"]

/-- The keyword arguments the `generate` body passes to
`UserAgentData(...)`; `ch_full_version`, `ch_form_factors`, `ch_wow64`
and `ch_prefers_color_scheme` are not fields of the dataclass. -/
def generateRecordCallKeywords : List String :=
  ["user_agent", "ch_brands", "ch_full_version_list", "ch_mobile", "ch_platform",
   "ch_platform_version", "ch_model", "ch_arch", "ch_bitness", "ch_full_version",
   "ch_form_factors", "ch_wow64", "ch_prefers_color_scheme",
   "meta_os", "meta_browser", "meta_device"]

/-- `UserAgentGenerator.generate`.  The first step after deriving the
session RNG is `self.candidate_sampler.sample(rand=session_rand)`; the
keyword fails to bind against `def sample(self)`. -/
def generate (st : GenState) (session : Option SessionKey) :
    Except PyErr (UserAgentData × GenState) := do
  let session_rand : RandGen :=
    match session with
    | some s => mkRandom (sessionToSeed st.seed (pyStrOfSession s))
    | none => st.rand
  let (idx, _) ← callSample st.candidateSampler ["rand"]
  match st.candidates.get? idx with
  | none => .error (.indexError "list index out of range")
  | some candidate => do
      let (os_data, g1) ← resolve_os st.osChoiceCache st.osTemplateSamplers
        st.loader candidate session_rand
      let platform := map_os_to_platform os_data.type
      let (full_version, g2) ← VersionExpander.generate_full_version
        candidate.family candidate.version g1 (some platform) st.loader
      let major_version := pySplitHead full_version
      let full_version_flattened := major_version ++ ".0.0.0"
      let chromium_version ← ClientHintsGenerator.get_major_chromium_full_version
        candidate.family full_version st.loader
      let (hw_info, g3) ← resolve_hardware st.deviceModelCache
        candidate.device_type candidate.family g2
      let os_token := injectAndroidModel candidate.device_type os_data.type
        candidate.family hw_info.model os_data.ua_token chromium_version
      match st.uaMetadata.get? idx with
      | none => .error (.indexError "list index out of range")
      | some metadata => do
          let ua_string ← build_ua_string metadata.family metadata.device
            os_token full_version_flattened metadata.version
          let (hints, g4) ← assembleHints candidate.family candidate.version
            candidate.device_type os_data hw_info full_version st.loader g3
          if generateRecordCallKeywords.all
              (fun k => userAgentDataFieldNames.contains k) then
            .ok (⟨ua_string, os_data.type, candidate.family, candidate.device_type,
              hints.brands, hints.full_version_list, hints.mobile, hints.platform,
              hints.platform_version, hints.model, hints.arch, hints.bitness⟩,
              if session.isSome then st else { st with rand := g4 })
          else
            .error (.typeError
              "UserAgentData init got an unexpected keyword argument")

/-! ## Concrete example inputs (used by the closed instance theorems) -/

/-- A concrete RNG whose integer stream is constantly 0. -/
def gEx : RandGen := ⟨fun _ => 0, fun _ => 0, 0⟩

/-- A concrete RNG whose integer stream is constantly 1. -/
def gEx1 : RandGen := ⟨fun _ => 1, fun _ => 0, 0⟩

/-- A one-entry alias sampler. -/
def exampleSampler : AliasSampler := ⟨⟨1, fun _ => 1, fun _ => 0⟩, gEx⟩

/-- A concrete browser candidate. -/
def candEx : BrowserCandidate := ⟨.CHROME, "120", .DESKTOP, .UNKNOWN, 1⟩

/-- A concrete generator state built over the example sampler with an
empty catalog. -/
def exampleGenState : GenState :=
  ⟨0, gEx, exampleSampler, [candEx], [⟨.CHROME, .DESKTOP, "120"⟩],
   fun _ => none, fun _ => none, fun _ => [], emptyLoader⟩

/-! ### Exactness of the alias-table construction

In exact rational arithmetic the constructed table carries the input
distribution: for each index `j`,
`prob[j] + ∑ over i with alias[i] = j of (1 - prob[i]) = n * w[j] / Σw`.
The proof tracks the mass invariant through the construction loop. -/

/-- `splitCh` never returns the empty list of pieces. -/
theorem splitCh_ne_nil (c : Char) (l : List Char) : splitCh c l ≠ [] := by
  induction l with
  | nil => simp [splitCh]
  | cons x xs ih =>
      simp only [splitCh]
      split
      · simp
      · cases h : splitCh c xs with
        | nil => simp
        | cons h t => simp

/-- A list that does not contain the separator splits into one piece. -/
theorem splitCh_of_not_contains (c : Char) (l : List Char)
    (h : l.contains c = false) : splitCh c l = [l] := by
  induction l with
  | nil => rfl
  | cons x xs ih =>
      simp only [List.contains_cons, Bool.or_eq_false_iff, beq_eq_false_iff_ne] at h
      simp only [splitCh]
      rw [if_neg (by exact fun hxc => h.1 hxc.symm)]
      rw [ih h.2]

/-- More than one dot-separated piece forces the separator to occur. -/
theorem contains_of_one_lt_splitCh (c : Char) (l : List Char)
    (h : 1 < (splitCh c l).length) : l.contains c = true := by
  by_contra hc
  rw [Bool.not_eq_true] at hc
  rw [splitCh_of_not_contains c l hc] at h
  simp at h

/-- Updating a function off a list leaves the mapped list unchanged. -/
theorem map_update_not_mem {β : Type} (f : ℕ → β) (k : ℕ) (v : β)
    (xs : List ℕ) (h : k ∉ xs) :
    xs.map (Function.update f k v) = xs.map f := by
  apply List.map_congr_left
  intro i hi
  have hik : i ≠ k := by
    intro he
    exact h (he ▸ hi)
  exact Function.update_noteq hik v f

/-- Entries all `≤ 1` bound the mapped sum by the length. -/
theorem list_sum_le_length (pw : ℕ → ℚ) (l : List ℕ)
    (h : ∀ i ∈ l, pw i ≤ 1) : (l.map pw).sum ≤ (l.length : ℚ) := by
  induction l with
  | nil => simp
  | cons x t ih =>
      simp only [List.map_cons, List.sum_cons, List.length_cons]
      push_cast
      have h1 := h x (List.mem_cons_self x t)
      have h2 := ih (fun i hi => h i (List.mem_cons_of_mem x hi))
      linarith

/-- Entries all `< 1` on a non-empty list make the sum strictly smaller
than the length. -/
theorem list_sum_lt_length (pw : ℕ → ℚ) (l : List ℕ) (hne : l ≠ [])
    (h : ∀ i ∈ l, pw i < 1) : (l.map pw).sum < (l.length : ℚ) := by
  cases l with
  | nil => exact absurd rfl hne
  | cons x t =>
      simp only [List.map_cons, List.sum_cons, List.length_cons]
      push_cast
      have h1 := h x (List.mem_cons_self x t)
      have h2 := list_sum_le_length pw t
        (fun i hi => le_of_lt (h i (List.mem_cons_of_mem x hi)))
      linarith

/-- Entries all `≥ 1` bound the mapped sum below by the length. -/
theorem list_length_le_sum (pw : ℕ → ℚ) (l : List ℕ)
    (h : ∀ i ∈ l, 1 ≤ pw i) : (l.length : ℚ) ≤ (l.map pw).sum := by
  induction l with
  | nil => simp
  | cons x t ih =>
      simp only [List.map_cons, List.sum_cons, List.length_cons]
      push_cast
      have h1 := h x (List.mem_cons_self x t)
      have h2 := ih (fun i hi => h i (List.mem_cons_of_mem x hi))
      linarith

/-- Entries all `≥ 1` whose sum equals the length are all exactly 1. -/
theorem list_all_eq_one (pw : ℕ → ℚ) (l : List ℕ)
    (h1 : ∀ i ∈ l, 1 ≤ pw i) (h2 : (l.map pw).sum = (l.length : ℚ)) :
    ∀ i ∈ l, pw i = 1 := by
  induction l with
  | nil => intro i hi; simp at hi
  | cons x t ih =>
      have hx := h1 x (List.mem_cons_self x t)
      have ht : ∀ i ∈ t, 1 ≤ pw i := fun i hi => h1 i (List.mem_cons_of_mem x hi)
      have htsum : ((t.length : ℚ)) ≤ (t.map pw).sum := list_length_le_sum pw t ht
      simp only [List.map_cons, List.sum_cons, List.length_cons] at h2
      push_cast at h2
      have hxone : pw x = 1 := by linarith
      have htlen : (t.map pw).sum = (t.length : ℚ) := by linarith
      intro i hi
      rcases List.mem_cons.mp hi with hxi | hti
      · exact hxi ▸ hxone
      · exact ih ht htlen i hti

/-- Finalizing one index `l` (recording `prob[l]` and `alias[l] = g`)
shifts the finalized-mass sum by exactly its alias contribution. -/
theorem sum_shift_finalize
    (n l g j : ℕ) (pf pw : ℕ → ℚ) (al : ℕ → ℕ) (hln : l < n)
    (oldSmall oldLarge newSmall newLarge : List ℕ)
    (hl1 : l ∉ newSmall) (hl2 : l ∉ newLarge) (hlold : l ∈ oldSmall)
    (hmem : ∀ i, i ≠ l →
      ((i ∉ newSmall ∧ i ∉ newLarge) ↔ (i ∉ oldSmall ∧ i ∉ oldLarge))) :
    (∑ i ∈ Finset.range n,
        if i ∉ newSmall ∧ i ∉ newLarge ∧ (Function.update al l g) i = j
        then 1 - (Function.update pf l (pw l)) i else 0)
      = (∑ i ∈ Finset.range n,
          if i ∉ oldSmall ∧ i ∉ oldLarge ∧ al i = j then 1 - pf i else 0)
        + (if g = j then 1 - pw l else 0) := by
  have hpt : ∀ i ∈ Finset.range n,
      (if i ∉ newSmall ∧ i ∉ newLarge ∧ (Function.update al l g) i = j
       then 1 - (Function.update pf l (pw l)) i else 0)
    = (if i ∉ oldSmall ∧ i ∉ oldLarge ∧ al i = j then 1 - pf i else 0)
      + (if i = l then (if g = j then 1 - pw l else 0) else 0) := by
    intro i _
    by_cases hil : i = l
    · subst hil
      simp only [Function.update_same]
      have h1 : (if i ∉ oldSmall ∧ i ∉ oldLarge ∧ al i = j then 1 - pf i else 0) = 0 :=
        if_neg (fun hcon => hcon.1 hlold)
      rw [h1, zero_add, if_pos trivial]
      by_cases hgj : g = j
      · rw [if_pos ⟨hl1, hl2, hgj⟩, if_pos hgj]
      · rw [if_neg (fun hcon => hgj hcon.2.2), if_neg hgj]
    · rw [Function.update_noteq hil g al, Function.update_noteq hil (pw l) pf,
        if_neg hil, add_zero]
      by_cases hc : i ∉ oldSmall ∧ i ∉ oldLarge ∧ al i = j
      · rw [if_pos hc, if_pos ⟨((hmem i hil).mpr ⟨hc.1, hc.2.1⟩).1,
          ((hmem i hil).mpr ⟨hc.1, hc.2.1⟩).2, hc.2.2⟩]
      · rw [if_neg hc]
        rw [if_neg (by
          intro hc2
          exact hc ⟨((hmem i hil).mp ⟨hc2.1, hc2.2.1⟩).1,
            ((hmem i hil).mp ⟨hc2.1, hc2.2.1⟩).2, hc2.2.2⟩)]
  rw [Finset.sum_congr rfl hpt, Finset.sum_add_distrib]
  congr 1
  rw [Finset.sum_ite_eq' (Finset.range n) l (fun _ => if g = j then 1 - pw l else 0)]
  rw [if_pos (Finset.mem_range.mpr hln)]

/-- The trailing `while` loops preserve the mass identity: every
remaining index has residual exactly 1 in exact arithmetic, so freezing
its final probability at 1 changes nothing. -/
theorem finalize_mass (n : ℕ) (scaled : ℕ → ℚ) :
    ∀ (L : List ℕ) (pw pf : ℕ → ℚ) (al : ℕ → ℕ),
    L.Nodup →
    (∀ i ∈ L, pw i = 1) →
    (∀ j, j < n →
      (if j ∈ L then pw j else pf j)
        + ∑ i ∈ Finset.range n, (if i ∉ L ∧ al i = j then 1 - pf i else 0)
      = scaled j) →
    ∀ j, j < n →
      (finalizeOnes pf L) j
        + ∑ i ∈ Finset.range n,
            (if al i = j then 1 - (finalizeOnes pf L) i else 0)
      = scaled j := by
  intro L
  induction L with
  | nil =>
      intro pw pf al _ _ hM j hj
      have h := hM j hj
      simpa [finalizeOnes] using h
  | cons g L ih =>
      intro pw pf al hnd hone hM j hj
      have hgL : g ∉ L := (List.nodup_cons.mp hnd).1
      have hnd2 : L.Nodup := (List.nodup_cons.mp hnd).2
      have hone2 : ∀ i ∈ L, pw i = 1 := fun i hi => hone i (List.mem_cons_of_mem g hi)
      have hM2 : ∀ j2, j2 < n →
          (if j2 ∈ L then pw j2 else (Function.update pf g 1) j2)
            + ∑ i ∈ Finset.range n,
                (if i ∉ L ∧ al i = j2 then 1 - (Function.update pf g 1) i else 0)
          = scaled j2 := by
        intro j2 hj2
        have hold := hM j2 hj2
        have hsum :
            (∑ i ∈ Finset.range n,
              (if i ∉ L ∧ al i = j2 then 1 - (Function.update pf g 1) i else 0))
            = ∑ i ∈ Finset.range n,
                (if i ∉ (g :: L) ∧ al i = j2 then 1 - pf i else 0) := by
          apply Finset.sum_congr rfl
          intro i _
          by_cases hig : i = g
          · subst hig
            have hrhs : (if i ∉ (i :: L) ∧ al i = j2 then 1 - pf i else 0) = 0 :=
              if_neg (fun hcon => hcon.1 (List.mem_cons_self i L))
            have hlhs :
                (if i ∉ L ∧ al i = j2 then 1 - (Function.update pf i 1) i else 0) = 0 := by
              by_cases hal : al i = j2
              · rw [if_pos ⟨hgL, hal⟩, Function.update_same]
                norm_num
              · exact if_neg (fun hcon => hal hcon.2)
            rw [hlhs, hrhs]
          · rw [Function.update_noteq hig 1 pf]
            by_cases hc : i ∉ L ∧ al i = j2
            · rw [if_pos hc, if_pos ⟨by
                intro hmem
                rcases List.mem_cons.mp hmem with h1 | h2
                · exact hig h1
                · exact hc.1 h2, hc.2⟩]
            · rw [if_neg hc, if_neg (fun hcon =>
                hc ⟨fun hiL => hcon.1 (List.mem_cons_of_mem g hiL), hcon.2⟩)]
        have hfirst :
            (if j2 ∈ L then pw j2 else (Function.update pf g 1) j2)
            = (if j2 ∈ (g :: L) then pw j2 else pf j2) := by
          by_cases hjg : j2 = g
          · subst hjg
            rw [if_neg hgL, if_pos (List.mem_cons_self j2 L), Function.update_same]
            exact (hone j2 (List.mem_cons_self j2 L)).symm
          · rw [Function.update_noteq hjg 1 pf]
            by_cases hjL : j2 ∈ L
            · rw [if_pos hjL, if_pos (List.mem_cons_of_mem g hjL)]
            · rw [if_neg hjL, if_neg (by
                intro hmem
                rcases List.mem_cons.mp hmem with h1 | h2
                · exact hjg h1
                · exact hjL h2)]
        rw [hfirst, hsum]
        exact hold
      have := ih pw (Function.update pf g 1) al hnd2 hone2 hM2 j hj
      simpa [finalizeOnes] using this

/-- One iteration of the main loop preserves the mass identity. -/
theorem step_mass (n : ℕ) (scaled : ℕ → ℚ)
    (l g : ℕ) (hln : l < n) (hlg : l ≠ g)
    (oldSmall oldLarge newSmall newLarge : List ℕ)
    (pw pf : ℕ → ℚ) (al : ℕ → ℕ)
    (hl1 : l ∉ newSmall) (hl2 : l ∉ newLarge)
    (hlold : l ∈ oldSmall)
    (hgold : g ∈ oldSmall ∨ g ∈ oldLarge)
    (hgnew : g ∈ newSmall ∨ g ∈ newLarge)
    (hmem : ∀ i, i ≠ l →
      ((i ∉ newSmall ∧ i ∉ newLarge) ↔ (i ∉ oldSmall ∧ i ∉ oldLarge)))
    (hmemOr : ∀ i, i ≠ l → i ≠ g →
      ((i ∈ newSmall ∨ i ∈ newLarge) ↔ (i ∈ oldSmall ∨ i ∈ oldLarge)))
    (hM : ∀ j, j < n →
      (if j ∈ oldSmall ∨ j ∈ oldLarge then pw j else pf j)
        + ∑ i ∈ Finset.range n,
            (if i ∉ oldSmall ∧ i ∉ oldLarge ∧ al i = j then 1 - pf i else 0)
      = scaled j) :
    ∀ j, j < n →
      (if j ∈ newSmall ∨ j ∈ newLarge
       then (Function.update pw g (pw g + pw l - 1)) j
       else (Function.update pf l (pw l)) j)
        + ∑ i ∈ Finset.range n,
            (if i ∉ newSmall ∧ i ∉ newLarge ∧ (Function.update al l g) i = j
             then 1 - (Function.update pf l (pw l)) i else 0)
      = scaled j := by
  intro j hj
  rw [sum_shift_finalize n l g j pf pw al hln oldSmall oldLarge newSmall newLarge
    hl1 hl2 hlold hmem]
  by_cases hjg : j = g
  · subst hjg
    rw [if_pos hgnew, Function.update_same, if_pos rfl]
    have h := hM j hj
    rw [if_pos hgold] at h
    linarith
  · by_cases hjl : j = l
    · have hnotmem : ¬(j ∈ newSmall ∨ j ∈ newLarge) := by
        rw [hjl]
        exact fun hor => hor.elim (fun h1 => hl1 h1) (fun h2 => hl2 h2)
      have hupd : Function.update pf l (pw l) j = pw l := by
        rw [hjl, Function.update_same]
      have hdelta : (if g = j then 1 - pw l else 0) = 0 :=
        if_neg (fun he => hlg (hjl.symm.trans he.symm))
      rw [if_neg hnotmem, hupd, hdelta, add_zero]
      have h := hM j hj
      rw [if_pos (Or.inl (by rw [hjl]; exact hlold))] at h
      have hpw : pw j = pw l := by rw [hjl]
      linarith [h, hpw]
    · have hdelta : (if g = j then 1 - pw l else 0) = 0 :=
        if_neg (fun he => hjg he.symm)
      rw [hdelta, add_zero]
      have hmo := hmemOr j hjl hjg
      by_cases hjin : j ∈ oldSmall ∨ j ∈ oldLarge
      · rw [if_pos (hmo.mpr hjin), Function.update_noteq hjg (pw g + pw l - 1) pw]
        have h := hM j hj
        rw [if_pos hjin] at h
        linarith
      · rw [if_neg (fun hc => hjin (hmo.mp hc)), Function.update_noteq hjl (pw l) pf]
        have h := hM j hj
        rw [if_neg hjin] at h
        linarith

/-- The mass identity carried through the whole construction loop:
with the invariants of `AliasSampler.__init__` (distinct bucketed
indices below `n`, the small/large threshold discipline, total mass
equal to the number of live indices) the resulting arrays represent
the scaled weights exactly. -/
theorem voseLoop_mass (n : ℕ) (scaled : ℕ → ℚ) :
    ∀ (fuel : ℕ) (small large : List ℕ) (pw pf : ℕ → ℚ) (al : ℕ → ℕ),
    small.length + large.length ≤ fuel →
    small.Nodup → large.Nodup →
    (∀ i ∈ small, i ∉ large) →
    (∀ i ∈ small, i < n) → (∀ i ∈ large, i < n) →
    (∀ i ∈ small, pw i < 1) → (∀ i ∈ large, 1 ≤ pw i) →
    (small.map pw).sum + (large.map pw).sum
      = (small.length : ℚ) + (large.length : ℚ) →
    (∀ j, j < n →
      (if j ∈ small ∨ j ∈ large then pw j else pf j)
        + ∑ i ∈ Finset.range n,
            (if i ∉ small ∧ i ∉ large ∧ al i = j then 1 - pf i else 0)
      = scaled j) →
    ∀ j, j < n →
      (voseLoop fuel pw pf al small large).1 j
        + ∑ i ∈ Finset.range n,
            (if (voseLoop fuel pw pf al small large).2 i = j
             then 1 - (voseLoop fuel pw pf al small large).1 i else 0)
      = scaled j := by
  intro fuel
  induction fuel with
  | zero =>
      intro small large pw pf al hlen hnds hndl hdisj hsb hlb hBs hBl hS hM j hj
      have hsmall : small = [] := List.eq_nil_of_length_eq_zero (by omega)
      have hlarge : large = [] := List.eq_nil_of_length_eq_zero (by omega)
      subst hsmall; subst hlarge
      have h := hM j hj
      simpa [voseLoop, finalizeOnes] using h
  | succ fuel ih =>
      intro small large pw pf al hlen hnds hndl hdisj hsb hlb hBs hBl hS hM j hj
      cases small with
      | nil =>
          have hred : voseLoop (fuel + 1) pw pf al [] large
              = (finalizeOnes pf large, al) := by
            cases large <;> simp [voseLoop, finalizeOnes]
          rw [hred]
          have hsum2 : (large.map pw).sum = (large.length : ℚ) := by
            simpa using hS
          have hones := list_all_eq_one pw large hBl hsum2
          have hM2 : ∀ j2, j2 < n →
              (if j2 ∈ large then pw j2 else pf j2)
                + ∑ i ∈ Finset.range n,
                    (if i ∉ large ∧ al i = j2 then 1 - pf i else 0)
              = scaled j2 := by
            intro j2 hj2
            have h := hM j2 hj2
            simpa using h
          exact finalize_mass n scaled large pw pf al hndl hones hM2 j hj
      | cons l s =>
          cases large with
          | nil =>
              exfalso
              have h1 : ((l :: s).map pw).sum < ((l :: s).length : ℚ) :=
                list_sum_lt_length pw (l :: s) (by simp) hBs
              simp only [List.map_nil, List.sum_nil, List.length_nil] at hS
              push_cast at hS
              simp only [add_zero] at hS
              rw [hS] at h1
              exact lt_irrefl _ h1
          | cons g L =>
              have hls : l ∉ s := (List.nodup_cons.mp hnds).1
              have hnds2 : s.Nodup := (List.nodup_cons.mp hnds).2
              have hgL : g ∉ L := (List.nodup_cons.mp hndl).1
              have hndl2 : L.Nodup := (List.nodup_cons.mp hndl).2
              have hlgl : l ∉ (g :: L) := hdisj l (List.mem_cons_self l s)
              have hlg : l ≠ g := fun he => hlgl (he ▸ List.mem_cons_self g L)
              have hlL : l ∉ L := fun h => hlgl (List.mem_cons_of_mem g h)
              have hgs : g ∉ s := fun h =>
                hdisj g (List.mem_cons_of_mem l h) (List.mem_cons_self g L)
              have hln : l < n := hsb l (List.mem_cons_self l s)
              have hgn : g < n := hlb g (List.mem_cons_self g L)
              have hSold : pw l + (s.map pw).sum + (pw g + (L.map pw).sum)
                  = ((s.length : ℚ) + 1) + ((L.length : ℚ) + 1) := by
                simp only [List.map_cons, List.sum_cons, List.length_cons] at hS
                push_cast at hS
                linarith
              have hmapS : s.map (Function.update pw g (pw g + pw l - 1)) = s.map pw :=
                map_update_not_mem pw g (pw g + pw l - 1) s hgs
              have hmapL : L.map (Function.update pw g (pw g + pw l - 1)) = L.map pw :=
                map_update_not_mem pw g (pw g + pw l - 1) L hgL
              by_cases hb : pw g + pw l - 1 < 1
              · have hred : voseLoop (fuel + 1) pw pf al (l :: s) (g :: L)
                    = voseLoop fuel (Function.update pw g (pw g + pw l - 1))
                        (Function.update pf l (pw l)) (Function.update al l g)
                        (g :: s) L := by
                  simp [voseLoop, hb]
                rw [hred]
                apply ih (g :: s) L (Function.update pw g (pw g + pw l - 1))
                  (Function.update pf l (pw l)) (Function.update al l g)
                · simp only [List.length_cons] at hlen ⊢
                  omega
                · exact List.nodup_cons.mpr ⟨hgs, hnds2⟩
                · exact hndl2
                · intro i hi
                  rcases List.mem_cons.mp hi with h1 | h2
                  · exact h1 ▸ hgL
                  · exact fun hiL =>
                      hdisj i (List.mem_cons_of_mem l h2) (List.mem_cons_of_mem g hiL)
                · intro i hi
                  rcases List.mem_cons.mp hi with h1 | h2
                  · exact h1 ▸ hgn
                  · exact hsb i (List.mem_cons_of_mem l h2)
                · intro i hi
                  exact hlb i (List.mem_cons_of_mem g hi)
                · intro i hi
                  rcases List.mem_cons.mp hi with h1 | h2
                  · rw [h1, Function.update_same]
                    exact hb
                  · rw [Function.update_noteq (fun (he : i = g) => hgs (he ▸ h2))
                      (pw g + pw l - 1) pw]
                    exact hBs i (List.mem_cons_of_mem l h2)
                · intro i hi
                  rw [Function.update_noteq (fun (he : i = g) => hgL (he ▸ hi))
                    (pw g + pw l - 1) pw]
                  exact hBl i (List.mem_cons_of_mem g hi)
                · simp only [List.map_cons, List.sum_cons, List.length_cons,
                    Function.update_same, hmapS, hmapL]
                  push_cast
                  linarith
                · apply step_mass n scaled l g hln hlg (l :: s) (g :: L) (g :: s) L
                    pw pf al
                  · intro hmem
                    rcases List.mem_cons.mp hmem with h1 | h2
                    · exact hlg h1
                    · exact hls h2
                  · exact hlL
                  · exact List.mem_cons_self l s
                  · exact Or.inr (List.mem_cons_self g L)
                  · exact Or.inl (List.mem_cons_self g s)
                  · intro i hil
                    simp only [List.mem_cons, not_or]
                    constructor
                    · rintro ⟨⟨hig, his⟩, hiL⟩
                      exact ⟨⟨hil, his⟩, hig, hiL⟩
                    · rintro ⟨⟨_, his⟩, hig, hiL⟩
                      exact ⟨⟨hig, his⟩, hiL⟩
                  · intro i hil hig
                    simp only [List.mem_cons]
                    constructor
                    · rintro (⟨h1 | h2⟩ | h3)
                      · exact absurd h1 hig
                      · exact Or.inl (Or.inr h2)
                      · exact Or.inr (Or.inr h3)
                    · rintro (⟨h1 | h2⟩ | ⟨h3 | h4⟩)
                      · exact absurd h1 hil
                      · exact Or.inl (Or.inr h2)
                      · exact absurd h3 hig
                      · exact Or.inr h4
                  · exact hM
                · exact hj
              · have hred : voseLoop (fuel + 1) pw pf al (l :: s) (g :: L)
                    = voseLoop fuel (Function.update pw g (pw g + pw l - 1))
                        (Function.update pf l (pw l)) (Function.update al l g)
                        s (g :: L) := by
                  simp [voseLoop, hb]
                rw [hred]
                apply ih s (g :: L) (Function.update pw g (pw g + pw l - 1))
                  (Function.update pf l (pw l)) (Function.update al l g)
                · simp only [List.length_cons] at hlen ⊢
                  omega
                · exact hnds2
                · exact List.nodup_cons.mpr ⟨hgL, hndl2⟩
                · intro i hi
                  intro hmem
                  rcases List.mem_cons.mp hmem with h1 | h2
                  · exact hgs (h1 ▸ hi)
                  · exact hdisj i (List.mem_cons_of_mem l hi) (List.mem_cons_of_mem g h2)
                · intro i hi
                  exact hsb i (List.mem_cons_of_mem l hi)
                · intro i hi
                  rcases List.mem_cons.mp hi with h1 | h2
                  · exact h1 ▸ hgn
                  · exact hlb i (List.mem_cons_of_mem g h2)
                · intro i hi
                  rw [Function.update_noteq (fun (he : i = g) => hgs (he ▸ hi))
                    (pw g + pw l - 1) pw]
                  exact hBs i (List.mem_cons_of_mem l hi)
                · intro i hi
                  rcases List.mem_cons.mp hi with h1 | h2
                  · rw [h1, Function.update_same]
                    exact le_of_not_lt hb
                  · rw [Function.update_noteq (fun (he : i = g) => hgL (he ▸ h2))
                      (pw g + pw l - 1) pw]
                    exact hBl i (List.mem_cons_of_mem g h2)
                · simp only [List.map_cons, List.sum_cons, List.length_cons,
                    Function.update_same, hmapS, hmapL]
                  push_cast
                  linarith
                · apply step_mass n scaled l g hln hlg (l :: s) (g :: L) s (g :: L)
                    pw pf al
                  · exact hls
                  · exact hlgl
                  · exact List.mem_cons_self l s
                  · exact Or.inr (List.mem_cons_self g L)
                  · exact Or.inr (List.mem_cons_self g L)
                  · intro i hil
                    simp only [List.mem_cons, not_or]
                    constructor
                    · rintro ⟨his, hig, hiL⟩
                      exact ⟨⟨hil, his⟩, hig, hiL⟩
                    · rintro ⟨⟨_, his⟩, hig, hiL⟩
                      exact ⟨his, hig, hiL⟩
                  · intro i hil hig
                    simp only [List.mem_cons]
                    constructor
                    · rintro (h2 | ⟨h3 | h4⟩)
                      · exact Or.inl (Or.inr h2)
                      · exact absurd h3 hig
                      · exact Or.inr (Or.inr h4)
                    · rintro (⟨h1 | h2⟩ | ⟨h3 | h4⟩)
                      · exact absurd h1 hil
                      · exact Or.inl h2
                      · exact absurd h3 hig
                      · exact Or.inr (Or.inr h4)
                  · exact hM
                · exact hj

/-- The loop never writes an alias index outside `[0, n)` (alias slots
are only ever set to members of `large`). -/
theorem voseLoop_alias_lt (n : ℕ) :
    ∀ (fuel : ℕ) (pw pf : ℕ → ℚ) (al : ℕ → ℕ) (small large : List ℕ),
    (∀ i ∈ large, i < n) → (∀ i, al i < n) →
    ∀ i, (voseLoop fuel pw pf al small large).2 i < n := by
  intro fuel
  induction fuel with
  | zero =>
      intro pw pf al small large hlb hal i
      simpa [voseLoop] using hal i
  | succ fuel ih =>
      intro pw pf al small large hlb hal i
      cases small with
      | nil =>
          have hred : voseLoop (fuel + 1) pw pf al [] large
              = (finalizeOnes pf large, al) := by
            cases large <;> simp [voseLoop]
          rw [hred]
          exact hal i
      | cons l s =>
          cases large with
          | nil =>
              have hred : voseLoop (fuel + 1) pw pf al (l :: s) []
                  = (finalizeOnes pf (l :: s), al) := by
                simp [voseLoop]
              rw [hred]
              exact hal i
          | cons g L =>
              have hgn : g < n := hlb g (List.mem_cons_self g L)
              have hal2 : ∀ i2, (Function.update al l g) i2 < n := by
                intro i2
                by_cases h : i2 = l
                · rw [h, Function.update_same]
                  exact hgn
                · rw [Function.update_noteq h g al]
                  exact hal i2
              by_cases hb : pw g + pw l - 1 < 1
              · have hred : voseLoop (fuel + 1) pw pf al (l :: s) (g :: L)
                    = voseLoop fuel (Function.update pw g (pw g + pw l - 1))
                        (Function.update pf l (pw l)) (Function.update al l g)
                        (g :: s) L := by
                  simp [voseLoop, hb]
                rw [hred]
                exact ih _ _ _ _ _ (fun i2 hi2 => hlb i2 (List.mem_cons_of_mem g hi2))
                  hal2 i
              · have hred : voseLoop (fuel + 1) pw pf al (l :: s) (g :: L)
                    = voseLoop fuel (Function.update pw g (pw g + pw l - 1))
                        (Function.update pf l (pw l)) (Function.update al l g)
                        s (g :: L) := by
                  simp [voseLoop, hb]
                rw [hred]
                exact ih _ _ _ _ _ hlb hal2 i

/-- Splitting a mapped sum along a boolean predicate. -/
theorem filter_partition_sum (f : ℕ → ℚ) (p : ℕ → Bool) (l : List ℕ) :
    ((l.filter p).map f).sum + ((l.filter (fun i => !p i)).map f).sum
      = (l.map f).sum := by
  induction l with
  | nil => simp
  | cons x t ih =>
      cases hp : p x
      · simp [List.filter_cons, hp]
        linarith
      · simp [List.filter_cons, hp]
        linarith

/-- Splitting a length along a boolean predicate. -/
theorem filter_partition_length (p : ℕ → Bool) (l : List ℕ) :
    (l.filter p).length + (l.filter (fun i => !p i)).length = l.length := by
  induction l with
  | nil => simp
  | cons x t ih =>
      cases hp : p x
      · simp [List.filter_cons, hp]
        omega
      · simp [List.filter_cons, hp]
        omega

/-- Summing `w.getD · 0 * c` over the index range recovers `w.sum * c`. -/
theorem sum_range_map_getD_mul (w : List ℚ) (c : ℚ) :
    ((List.range w.length).map (fun i => w.getD i 0 * c)).sum = w.sum * c := by
  induction w with
  | nil => simp
  | cons a t ih =>
      rw [List.length_cons, List.range_succ_eq_map, List.map_cons, List.sum_cons,
        List.map_map]
      have hcomp : (List.range t.length).map ((fun i => (a :: t).getD i 0 * c) ∘ Nat.succ)
          = (List.range t.length).map (fun i => t.getD i 0 * c) := by
        apply List.map_congr_left
        intro i _
        simp [Function.comp, List.getD_cons_succ]
      rw [hcomp, ih, List.getD_cons_zero, List.sum_cons]
      ring

/-- The constructed table is exact: for every index `j` the retained
probability plus the alias contributions equal the scaled weight. -/
theorem buildAliasTable_mass (w : List ℚ) (hw : w ≠ []) (hsum : 0 < w.sum) :
    ∀ j, j < w.length →
      (buildAliasTable w).prob j
        + ∑ i ∈ Finset.range w.length,
            (if (buildAliasTable w).aliasArr i = j
             then 1 - (buildAliasTable w).prob i else 0)
      = (w.length : ℚ) * w.getD j 0 / w.sum := by
  intro j hj
  have hne : w.sum ≠ 0 := ne_of_gt hsum
  have hprob : (buildAliasTable w).prob
      = (voseLoop w.length (scaledWeights w) (fun _ => 0) (fun _ => 0)
          (((List.range w.length).filter
              (fun i => decide (scaledWeights w i < 1))).reverse)
          (((List.range w.length).filter
              (fun i => !decide (scaledWeights w i < 1))).reverse)).1 := rfl
  have halias : (buildAliasTable w).aliasArr
      = (voseLoop w.length (scaledWeights w) (fun _ => 0) (fun _ => 0)
          (((List.range w.length).filter
              (fun i => decide (scaledWeights w i < 1))).reverse)
          (((List.range w.length).filter
              (fun i => !decide (scaledWeights w i < 1))).reverse)).2 := rfl
  have hmemS : ∀ i, i ∈ (((List.range w.length).filter
        (fun i => decide (scaledWeights w i < 1))).reverse)
      ↔ (i < w.length ∧ scaledWeights w i < 1) := by
    intro i
    rw [List.mem_reverse, List.mem_filter, List.mem_range]
    simp
  have hmemL : ∀ i, i ∈ (((List.range w.length).filter
        (fun i => !decide (scaledWeights w i < 1))).reverse)
      ↔ (i < w.length ∧ ¬ scaledWeights w i < 1) := by
    intro i
    rw [List.mem_reverse, List.mem_filter, List.mem_range]
    simp
  have hkey := voseLoop_mass w.length (scaledWeights w) w.length
    (((List.range w.length).filter (fun i => decide (scaledWeights w i < 1))).reverse)
    (((List.range w.length).filter (fun i => !decide (scaledWeights w i < 1))).reverse)
    (scaledWeights w) (fun _ => 0) (fun _ => 0)
    (by
      rw [List.length_reverse, List.length_reverse]
      rw [filter_partition_length (fun i => decide (scaledWeights w i < 1))
        (List.range w.length)]
      rw [List.length_range])
    (List.nodup_reverse.mpr ((List.nodup_range w.length).filter _))
    (List.nodup_reverse.mpr ((List.nodup_range w.length).filter _))
    (by
      intro i hi hi2
      exact ((hmemL i).mp hi2).2 ((hmemS i).mp hi).2)
    (fun i hi => ((hmemS i).mp hi).1)
    (fun i hi => ((hmemL i).mp hi).1)
    (fun i hi => ((hmemS i).mp hi).2)
    (fun i hi => not_lt.mp ((hmemL i).mp hi).2)
    (by
      have hnat : ((List.range w.length).filter
            (fun i => decide (scaledWeights w i < 1))).length
          + ((List.range w.length).filter
            (fun i => !decide (scaledWeights w i < 1))).length
          = w.length := by
        rw [filter_partition_length (fun i => decide (scaledWeights w i < 1))
          (List.range w.length), List.length_range]
      rw [List.map_reverse, List.sum_reverse, List.map_reverse, List.sum_reverse,
        List.length_reverse, List.length_reverse,
        filter_partition_sum (scaledWeights w)
          (fun i => decide (scaledWeights w i < 1)) (List.range w.length)]
      have hsum2 : ((List.range w.length).map (scaledWeights w)).sum
          = w.sum * ((w.length : ℚ) / w.sum) := by
        rw [show (List.range w.length).map (scaledWeights w)
            = (List.range w.length).map
                (fun i => w.getD i 0 * ((w.length : ℚ) / w.sum)) from
          List.map_congr_left (fun i _ => by rw [scaledWeights, mul_div_assoc])]
        exact sum_range_map_getD_mul w ((w.length : ℚ) / w.sum)
      rw [hsum2]
      have hval : w.sum * ((w.length : ℚ) / w.sum) = (w.length : ℚ) := by
        field_simp
      rw [hval]
      exact_mod_cast hnat.symm)
    (by
      intro j2 hj2
      have hcov : j2 ∈ (((List.range w.length).filter
            (fun i => decide (scaledWeights w i < 1))).reverse)
          ∨ j2 ∈ (((List.range w.length).filter
            (fun i => !decide (scaledWeights w i < 1))).reverse) := by
        by_cases hlt : scaledWeights w j2 < 1
        · exact Or.inl ((hmemS j2).mpr ⟨hj2, hlt⟩)
        · exact Or.inr ((hmemL j2).mpr ⟨hj2, hlt⟩)
      rw [if_pos hcov]
      have hzero : (∑ i ∈ Finset.range w.length,
          (if i ∉ (((List.range w.length).filter
                (fun i => decide (scaledWeights w i < 1))).reverse)
              ∧ i ∉ (((List.range w.length).filter
                (fun i => !decide (scaledWeights w i < 1))).reverse)
              ∧ (fun _ => 0) i = j2
           then 1 - (fun _ => (0 : ℚ)) i else 0)) = 0 := by
        apply Finset.sum_eq_zero
        intro i hi
        have hin : i < w.length := Finset.mem_range.mp hi
        apply if_neg
        intro hcon
        by_cases hlt : scaledWeights w i < 1
        · exact hcon.1 ((hmemS i).mpr ⟨hin, hlt⟩)
        · exact hcon.2.1 ((hmemL i).mpr ⟨hin, hlt⟩)
      rw [hzero, add_zero])
    j hj
  rw [hprob, halias]
  rw [hkey]
  rw [scaledWeights]
  ring

/-- Every alias slot of the constructed table is an index in `[0, n)`. -/
theorem buildAliasTable_alias_lt (w : List ℚ) (hw : w ≠ []) :
    ∀ i, (buildAliasTable w).aliasArr i < w.length := by
  intro i
  have hn : 0 < w.length := List.length_pos.mpr hw
  have halias : (buildAliasTable w).aliasArr
      = (voseLoop w.length (scaledWeights w) (fun _ => 0) (fun _ => 0)
          (((List.range w.length).filter
              (fun i => decide (scaledWeights w i < 1))).reverse)
          (((List.range w.length).filter
              (fun i => !decide (scaledWeights w i < 1))).reverse)).2 := rfl
  rw [halias]
  apply voseLoop_alias_lt w.length w.length (scaledWeights w) (fun _ => 0) (fun _ => 0)
  · intro i2 hi2
    rw [List.mem_reverse, List.mem_filter, List.mem_range] at hi2
    exact hi2.1
  · intro _
    exact hn

/-! ## Claim theorems -/

/-- Masking with `0x7FFFFFFF` keeps the low 31 bits: reduction modulo
`2^31` (not modulo the Mersenne prime `2^31 - 1`). -/
theorem land_mask_eq_mod (x : ℕ) : x &&& 0x7FFFFFFF = x % 2 ^ 31 := by
  apply Nat.eq_of_testBit_eq
  intro i
  rw [Nat.testBit_land, Nat.testBit_mod_two_pow]
  rw [show (0x7FFFFFFF : ℕ) = 2 ^ 31 - 1 from rfl, Nat.testBit_two_pow_sub_one]
  cases h : x.testBit i <;> simp

/-- C6 (amended): the sub-seed is computed by starting from the base
seed and folding in each character via
`h = (h * 31 + charCode) mod 2^31` — the code masks with
`& 0x7FFFFFFF`, which keeps the low 31 bits, i.e. reduces modulo
`2^31`, not modulo the prime `2^31 - 1` the spec names. -/
theorem session_seed_mask_recurrence (seed : ℕ) (s : String) :
    sessionToSeed seed s
      = s.data.foldl (fun h c => (h * 31 + c.toNat) % 2 ^ 31) seed := by
  rw [sessionToSeed]
  have hgen : ∀ (l : List Char) (a : ℕ),
      l.foldl (fun h c => (h * 31 + c.toNat) &&& 0x7FFFFFFF) a
        = l.foldl (fun h c => (h * 31 + c.toNat) % 2 ^ 31) a := by
    intro l
    induction l with
    | nil => intro a; rfl
    | cons c t ih =>
        intro a
        simp only [List.foldl_cons]
        rw [land_mask_eq_mod]
        exact ih _
  exact hgen s.data seed

/-- C6 (counterexample): on base seed 0 and session key `"aaaaaa"` the
code's `& 0x7FFFFFFF` fold differs from the spec's
`mod (2^31 - 1)` recurrence, so the claimed recurrence is not the
implemented one. -/
theorem session_seed_modulus_counterexample :
    sessionToSeed 0 "aaaaaa" ≠ sessionToSeedSpec 0 "aaaaaa" := by
  decide

/-- C9: `AliasSampler` construction fails (raises) exactly when the
weight vector is empty or its sum is not positive; any non-empty vector
with positive sum constructs successfully. -/
theorem weightedSampler_construction_fails_iff (w : List ℚ) (g : RandGen) :
    (∃ e, mkAliasSampler w g = .error e) ↔ (w = [] ∨ w.sum ≤ 0) := by
  rw [mkAliasSampler]
  by_cases h1 : w.length = 0
  · rw [if_pos h1]
    simp [List.length_eq_zero.mp h1]
  · rw [if_neg h1]
    have hne : w ≠ [] := fun he => h1 (by rw [he]; rfl)
    by_cases h2 : w.sum ≤ 0
    · rw [if_pos h2]
      simp [h2]
    · rw [if_neg h2]
      simp [hne, h2]

/-- C10: when the derived `(family key, device scope)` pair has no entry
in the OS-distribution cache, `_resolve_os` raises nothing and returns
the fixed fallback: `OSType.LINUX`, platform header `"Linux"`, UA token
`"X11; Linux x86_64"` and platform version `"5.0.0"`. -/
theorem resolve_os_fallback
    (osChoiceCache : String × String → Option OsCacheEntry)
    (osTemplateSamplers : String → Option AliasSampler) (ld : DataLoaderT)
    (cand : BrowserCandidate) (g : RandGen)
    (h : osChoiceCache (deriveOsCacheKey cand.family cand.device_type) = none) :
    resolve_os osChoiceCache osTemplateSamplers ld cand g
      = .ok (⟨OSType.LINUX, "Linux", "X11; Linux x86_64", "5.0.0"⟩, g) := by
  rw [resolve_os, h]

/-- C10 witness: the fallback at a concrete candidate and empty cache. -/
theorem resolve_os_fallback_witness :
    resolve_os (fun _ => none) (fun _ => none) emptyLoader candEx gEx
      = .ok (⟨OSType.LINUX, "Linux", "X11; Linux x86_64", "5.0.0"⟩, gEx) :=
  resolve_os_fallback (fun _ => none) (fun _ => none) emptyLoader candEx gEx rfl

/-- C1: `generate` raises `TypeError` for every generator state and
every session argument — its first step calls
`self.candidate_sampler.sample(rand=session_rand)` while
`AliasSampler.sample` is declared `def sample(self)`, so every draw
aborts instead of returning a record (the repo's own tests expect a
record). -/
theorem generate_always_raises (st : GenState) (session : Option SessionKey) :
    generate st session
      = .error (.typeError "sample() got an unexpected keyword argument rand") := by
  rfl

/-- C2: a session-keyed draw on a concrete composer errors out instead
of returning a record, so no two calls with the same session key return
identical records — both return the same `TypeError`. -/
theorem generate_session_draw_raises :
    generate exampleGenState (some (SessionKey.str "alice"))
      = .error (.typeError "sample() got an unexpected keyword argument rand") := by
  rfl

/-- Evaluating one `sample()` call: one `randrange` draw, one `random()`
draw, then the die-or-alias decision. -/
theorem sample_eval (s : AliasSampler) (hn : s.table.n ≠ 0) :
    s.sample = .ok (s.table.sampleIdx (s.rng.ints s.rng.pos % s.table.n)
        (s.rng.step.reals s.rng.step.pos), { s with rng := s.rng.step.step }) := by
  rw [AliasSampler.sample, pyRandrange, if_neg hn]
  rfl

/-- The sampled index is always in `[0, n)`. -/
theorem sampleIdx_lt (t : AliasTable) (halias : ∀ i, t.aliasArr i < t.n)
    (die : ℕ) (hdie : die < t.n) (coin : ℚ) : t.sampleIdx die coin < t.n := by
  rw [AliasTable.sampleIdx]
  split
  · exact hdie
  · exact halias die

/-- C4: for every weight vector of length ≥ 1 with positive sum the
sampler constructs, every `sample()` call returns an index in `[0, n)`
without raising, and in exact rational arithmetic the alias table
satisfies `prob[j] + ∑ over i with alias[i] = j of (1 - prob[i])
= n * w[j] / Σw` — so one fair die plus one biased coin return `j` with
probability `w[j] / Σw`. -/
theorem aliasSampler_exact_distribution (w : List ℚ) (rng : RandGen)
    (hne : w ≠ []) (hpos : 0 < w.sum) :
    ∃ s : AliasSampler, mkAliasSampler w rng = .ok s ∧
      (∀ g : RandGen, ∃ i s2,
        ({ s with rng := g } : AliasSampler).sample = .ok (i, s2) ∧ i < w.length) ∧
      (∀ j, j < w.length →
        s.table.prob j
          + ∑ i ∈ Finset.range w.length,
              (if s.table.aliasArr i = j then 1 - s.table.prob i else 0)
        = (w.length : ℚ) * w.getD j 0 / w.sum) := by
  have hlen : w.length ≠ 0 := fun h => hne (List.length_eq_zero.mp h)
  refine ⟨⟨buildAliasTable w, rng⟩, ?_, ?_, ?_⟩
  · rw [mkAliasSampler, if_neg hlen, if_neg (not_le.mpr hpos)]
  · intro g
    refine ⟨_, _, sample_eval ⟨buildAliasTable w, g⟩ hlen, ?_⟩
    apply sampleIdx_lt
    · exact buildAliasTable_alias_lt w hne
    · exact Nat.mod_lt _ (Nat.pos_of_ne_zero hlen)
  · exact buildAliasTable_mass w hne hpos

/-- C4 witness: the exactness statement instantiated at the weight
vector `[1, 3]` and a concrete RNG. -/
theorem aliasSampler_exact_distribution_witness :
    ∃ s : AliasSampler, mkAliasSampler [1, 3] gEx = .ok s ∧
      (∀ g : RandGen, ∃ i s2,
        ({ s with rng := g } : AliasSampler).sample = .ok (i, s2)
          ∧ i < ([1, 3] : List ℚ).length) ∧
      (∀ j, j < ([1, 3] : List ℚ).length →
        s.table.prob j
          + ∑ i ∈ Finset.range ([1, 3] : List ℚ).length,
              (if s.table.aliasArr i = j then 1 - s.table.prob i else 0)
        = (([1, 3] : List ℚ).length : ℚ) * ([1, 3] : List ℚ).getD j 0
            / ([1, 3] : List ℚ).sum) :=
  aliasSampler_exact_distribution [1, 3] gEx (by decide) (by norm_num)

/-- C8: version expansion — any marketing version with more than one
dot-separated component is returned unchanged for every family; Firefox
`"115"` expands to exactly `"115.0"`; Safari `"17.2"` is returned
verbatim; Chrome `"142"` with no historical data yields `"142.0.0.0"`;
and no input makes expansion return an error. -/
theorem version_expansion_cases :
    (∀ (family : BrowserFamily) (mv : String) (g : RandGen)
        (platform : Option String) (ld : DataLoaderT),
        1 < (splitCh '.' mv.data).length →
        VersionExpander.generate_full_version family mv g platform ld
          = .ok (mv, g)) ∧
    (∀ (g : RandGen) (platform : Option String) (ld : DataLoaderT),
        VersionExpander.generate_full_version BrowserFamily.FIREFOX "115" g
          platform ld = .ok ("115.0", g)) ∧
    (∀ (g : RandGen) (platform : Option String) (ld : DataLoaderT),
        VersionExpander.generate_full_version BrowserFamily.SAFARI "17.2" g
          platform ld = .ok ("17.2", g)) ∧
    (∀ (g : RandGen) (platform : Option String),
        VersionExpander.generate_full_version BrowserFamily.CHROME "142" g
          platform emptyLoader = .ok ("142.0.0.0", g)) ∧
    (∀ (family : BrowserFamily) (mv : String) (g : RandGen)
        (platform : Option String) (ld : DataLoaderT), ∃ out,
        VersionExpander.generate_full_version family mv g platform ld
          = .ok out) := by
  refine ⟨?_, ?_, ?_, ?_, ?_⟩
  · intro family mv g platform ld hsplit
    rw [VersionExpander.generate_full_version.eq_def,
      if_pos ⟨contains_of_one_lt_splitCh '.' mv.data hsplit, hsplit⟩]
  · intro g platform ld
    rfl
  · intro g platform ld
    rfl
  · intro g platform
    rfl
  · intro family mv g platform ld
    by_cases hdot : (mv.data.contains '.' : Prop)
        ∧ 1 < (splitCh '.' mv.data).length
    · exact ⟨(mv, g), by
        rw [VersionExpander.generate_full_version.eq_def, if_pos hdot]⟩
    · cases family
      all_goals exact ⟨_, by
        rw [VersionExpander.generate_full_version.eq_def, if_neg hdot]⟩

/-- C8 witness: the dotted-version early return at `"1.2.3"` and the
Firefox case, at concrete inputs. -/
theorem version_expansion_cases_witness :
    VersionExpander.generate_full_version BrowserFamily.CHROME "1.2.3" gEx none
        emptyLoader = .ok ("1.2.3", gEx) ∧
    VersionExpander.generate_full_version BrowserFamily.FIREFOX "115" gEx none
        emptyLoader = .ok ("115.0", gEx) :=
  ⟨version_expansion_cases.1 BrowserFamily.CHROME "1.2.3" gEx none emptyLoader
      (by decide),
   version_expansion_cases.2.1 gEx none emptyLoader⟩

/-- C5 (counterexample): two RNG streams under which the documented
randomized GREASE construction (`_get_brand_tuples`) produces different
brand lists, yet the Sec-CH-UA value the draw actually emits
(`generate_brands`) is identical — the decoy does not vary with the
injected RNG. -/
theorem grease_randomization_unused_counterexample :
    ClientHintsGenerator.format_brand_list
        (ClientHintsGenerator.get_brand_tuples BrowserFamily.CHROME "120" gEx).1
      ≠ ClientHintsGenerator.format_brand_list
        (ClientHintsGenerator.get_brand_tuples BrowserFamily.CHROME "120" gEx1).1
    ∧ ClientHintsGenerator.generate_brands BrowserFamily.CHROME "120" gEx
      = ClientHintsGenerator.generate_brands BrowserFamily.CHROME "120" gEx1 := by
  constructor
  · decide
  · rfl

/-- C5 (amended): the Sec-CH-UA brand list produced during a draw is
independent of the injected RNG — `generate_brands` ignores its `rand`
argument and always emits the fixed decoy `"Not A Brand";v="99"` first,
followed by the family brands in fixed order; the randomized GREASE
construction (separator slots from the punctuation alphabet, decoy
version from 99/8/24, shuffled order) exists only in the helper
`_get_brand_tuples`, which the draw never invokes. -/
theorem generate_brands_rng_independent (family : BrowserFamily) (mv : String)
    (g g2 : RandGen) (h1 : family ≠ .FIREFOX) (h2 : family ≠ .SAFARI) :
    ClientHintsGenerator.generate_brands family mv g
      = ClientHintsGenerator.generate_brands family mv g2 ∧
    ∃ rest, ClientHintsGenerator.generate_brands family mv g
      = "\"Not A Brand\";v=\"99\", " ++ rest := by
  constructor
  · rfl
  · cases family
    case FIREFOX => exact absurd rfl h1
    case SAFARI => exact absurd rfl h2
    case CHROME =>
      exact ⟨pyJoin ", " ["\"Chromium\";v=\"" ++ mv ++ "\"",
        "\"Google Chrome\";v=\"" ++ mv ++ "\""], rfl⟩
    case EDGE =>
      exact ⟨pyJoin ", " ["\"Chromium\";v=\"" ++ mv ++ "\"",
        "\"Microsoft Edge\";v=\"" ++ mv ++ "\""], rfl⟩
    case OPERA =>
      exact ⟨pyJoin ", " ["\"Chromium\";v=\""
          ++ (match pyStrToInt mv with
              | some k => toString (k + 16)
              | none => mv) ++ "\"",
        "\"Opera\";v=\"" ++ mv ++ "\""], rfl⟩
    case UNKNOWN =>
      exact ⟨pyJoin ", " ["\"Chromium\";v=\"" ++ mv ++ "\""], rfl⟩

/-- C5 witness: the amended statement at Chrome, major 120, and two
concrete RNGs. -/
theorem generate_brands_rng_independent_witness :
    (ClientHintsGenerator.generate_brands BrowserFamily.CHROME "120" gEx
      = ClientHintsGenerator.generate_brands BrowserFamily.CHROME "120" gEx1) ∧
    ∃ rest, ClientHintsGenerator.generate_brands BrowserFamily.CHROME "120" gEx
      = "\"Not A Brand\";v=\"99\", " ++ rest :=
  generate_brands_rng_independent BrowserFamily.CHROME "120" gEx gEx1
    (by decide) (by decide)

/-- C3: for a Firefox- or Safari-family draw, every structured
client-hint value computed during record assembly is the empty string
(the empty `HintValues`), and the minimal header map of the resulting
record contains only the legacy `User-Agent` key — no `Sec-CH-*` key. -/
theorem firefox_safari_hints_empty (family : BrowserFamily) (mv : String)
    (device : DeviceType) (osd : OsData) (hw : HardwareInfo) (fv : String)
    (ld : DataLoaderT) (g : RandGen) (ua : String) (os : OSType)
    (h : family = .FIREFOX ∨ family = .SAFARI) :
    assembleHints family mv device osd hw fv ld g = .ok (emptyHintValues, g) ∧
    (UserAgentData.mk ua os family device
        emptyHintValues.brands emptyHintValues.full_version_list
        emptyHintValues.mobile emptyHintValues.platform
        emptyHintValues.platform_version emptyHintValues.model
        emptyHintValues.arch emptyHintValues.bitness).get_headers
      = [("User-Agent", ua)] := by
  rcases h with h | h <;> subst h <;> exact ⟨rfl, rfl⟩

/-- C3 witness: the empty hints and minimal header map at a concrete
Firefox desktop draw. -/
theorem firefox_safari_hints_empty_witness :
    assembleHints BrowserFamily.FIREFOX "115" DeviceType.DESKTOP
        ⟨OSType.WINDOWS, "Windows", "Windows NT 10.0; Win64; x64", "10.0.0"⟩
        ⟨DeviceType.DESKTOP, none, none, "x86_64"⟩ "115.0" emptyLoader gEx
      = .ok (emptyHintValues, gEx) ∧
    (UserAgentData.mk "UA" OSType.WINDOWS BrowserFamily.FIREFOX
        DeviceType.DESKTOP
        emptyHintValues.brands emptyHintValues.full_version_list
        emptyHintValues.mobile emptyHintValues.platform
        emptyHintValues.platform_version emptyHintValues.model
        emptyHintValues.arch emptyHintValues.bitness).get_headers
      = [("User-Agent", "UA")] :=
  firefox_safari_hints_empty BrowserFamily.FIREFOX "115" DeviceType.DESKTOP
    ⟨OSType.WINDOWS, "Windows", "Windows NT 10.0; Win64; x64", "10.0.0"⟩
    ⟨DeviceType.DESKTOP, none, none, "x86_64"⟩ "115.0" emptyLoader gEx "UA"
    OSType.WINDOWS (Or.inl rfl)

/-- C7: for a mobile Android record of a Chromium-family browser with a
non-empty sampled model — with engine major ≥ 110 the legacy string's
OS token is the frozen `"Linux; Android 10; K"`; below 110 the device
model appears as a substring of the legacy string; the structured model
hint reports the sampled model regardless; and for Edge/Opera an
unresolvable engine major resolves to `-1`, so the freeze never
applies. -/
theorem android_freeze_policy (family : BrowserFamily) (model : String)
    (os_token : String) (cv : ℤ) (fvflat mv : String)
    (hfam : family ∈ [BrowserFamily.CHROME, BrowserFamily.EDGE,
      BrowserFamily.OPERA])
    (hmodel : model ≠ "") :
    (110 ≤ cv →
      injectAndroidModel DeviceType.MOBILE OSType.ANDROID family (some model)
        os_token cv = "Linux; Android 10; K") ∧
    (cv < 110 →
      injectAndroidModel DeviceType.MOBILE OSType.ANDROID family (some model)
        os_token cv = os_token ++ "; " ++ model) ∧
    (∀ ua, build_ua_string family DeviceType.MOBILE
        (injectAndroidModel DeviceType.MOBILE OSType.ANDROID family (some model)
          os_token cv) fvflat mv = .ok ua →
      ∃ p q, ua = p ++ injectAndroidModel DeviceType.MOBILE OSType.ANDROID
        family (some model) os_token cv ++ q) ∧
    (cv < 110 → ∀ ua, build_ua_string family DeviceType.MOBILE
        (injectAndroidModel DeviceType.MOBILE OSType.ANDROID family (some model)
          os_token cv) fvflat mv = .ok ua →
      ∃ p q, ua = p ++ model ++ q) ∧
    chModelValue DeviceType.MOBILE (some model) = model ∧
    (∀ fv (ld : DataLoaderT), (∀ m, ld.chromium_by_major m = []) →
      family ≠ BrowserFamily.CHROME →
      ClientHintsGenerator.get_major_chromium_full_version family fv ld
        = .ok (-1)) := by
  have htr : strOptTruthy (some model) = true := by
    simp [strOptTruthy, hmodel]
  have h1 : 110 ≤ cv →
      injectAndroidModel DeviceType.MOBILE OSType.ANDROID family (some model)
        os_token cv = "Linux; Android 10; K" := by
    intro hcv
    rw [injectAndroidModel, if_pos ⟨rfl, rfl⟩, if_pos ⟨htr, hfam, hcv⟩]
  have h2 : cv < 110 →
      injectAndroidModel DeviceType.MOBILE OSType.ANDROID family (some model)
        os_token cv = os_token ++ "; " ++ model := by
    intro hcv
    rw [injectAndroidModel, if_pos ⟨rfl, rfl⟩,
      if_neg (fun hcon => absurd hcon.2.2 (not_le.mpr hcv)), if_pos htr]
    rfl
  have h3 : ∀ ua, build_ua_string family DeviceType.MOBILE
      (injectAndroidModel DeviceType.MOBILE OSType.ANDROID family (some model)
        os_token cv) fvflat mv = .ok ua →
      ∃ p q, ua = p ++ injectAndroidModel DeviceType.MOBILE OSType.ANDROID
        family (some model) os_token cv ++ q := by
    generalize injectAndroidModel DeviceType.MOBILE OSType.ANDROID family
      (some model) os_token cv = tok
    intro ua hua
    fin_cases hfam
    · simp only [build_ua_string, Except.ok.injEq] at hua
      subst hua
      exact ⟨"Mozilla/5.0 (", ") AppleWebKit/537.36 (KHTML, like Gecko) Chrome/"
        ++ fvflat ++ " " ++ "Mobile " ++ "Safari/537.36",
        by simp [String.append_assoc]⟩
    · simp only [build_ua_string, Except.ok.injEq] at hua
      subst hua
      exact ⟨"Mozilla/5.0 (", ") AppleWebKit/537.36 (KHTML, like Gecko) Chrome/"
        ++ fvflat ++ " Safari/537.36 Edg/" ++ fvflat,
        by simp [String.append_assoc]⟩
    · rcases hk : pyStrToInt (pySplitHead fvflat)
        with _ | k
      · simp only [build_ua_string, hk] at hua
        exact absurd hua (by simp)
      · simp only [build_ua_string, hk, Except.ok.injEq] at hua
        subst hua
        exact ⟨"Mozilla/5.0 (", ") AppleWebKit/537.36 (KHTML, like Gecko) Chrome/"
          ++ toString (k + 16) ++ ".0.0.0 Safari/537.36 OPR/" ++ fvflat,
          by simp [String.append_assoc]⟩
  refine ⟨h1, h2, h3, ?_, ?_, ?_⟩
  · intro hcv ua hua
    obtain ⟨p, q, hpq⟩ := h3 ua hua
    refine ⟨p ++ (os_token ++ "; "), q, ?_⟩
    rw [hpq, h2 hcv]
    simp [String.append_assoc]
  · simp [chModelValue, strOptTruthy, hmodel]
  · intro fv ld hld hnc
    fin_cases hfam
    · exact absurd rfl hnc
    · simp [ClientHintsGenerator.get_major_chromium_full_version,
        DataLoaderT.get_chromium_version_for_edge, hld]
    · rcases hp : pyStrToInt (pySplitHead fv)
        with _ | k
      · simp [ClientHintsGenerator.get_major_chromium_full_version,
          DataLoaderT.get_chromium_version_for_opera, hp]
      · simp [ClientHintsGenerator.get_major_chromium_full_version,
          DataLoaderT.get_chromium_version_for_opera, hp, hld]

/-- C7 witness: the freeze and the model hint at a concrete Chrome 120
mobile Android draw. -/
theorem android_freeze_policy_witness :
    ((110 : ℤ) ≤ 120 →
      injectAndroidModel DeviceType.MOBILE OSType.ANDROID BrowserFamily.CHROME
        (some "Pixel 7") "Linux; Android 13" 120 = "Linux; Android 10; K") ∧
    ((120 : ℤ) < 110 →
      injectAndroidModel DeviceType.MOBILE OSType.ANDROID BrowserFamily.CHROME
        (some "Pixel 7") "Linux; Android 13" 120
        = "Linux; Android 13" ++ "; " ++ "Pixel 7") ∧
    (∀ ua, build_ua_string BrowserFamily.CHROME DeviceType.MOBILE
        (injectAndroidModel DeviceType.MOBILE OSType.ANDROID BrowserFamily.CHROME
          (some "Pixel 7") "Linux; Android 13" 120) "120.0.0.0" "120" = .ok ua →
      ∃ p q, ua = p ++ injectAndroidModel DeviceType.MOBILE OSType.ANDROID
        BrowserFamily.CHROME (some "Pixel 7") "Linux; Android 13" 120 ++ q) ∧
    ((120 : ℤ) < 110 → ∀ ua, build_ua_string BrowserFamily.CHROME
        DeviceType.MOBILE
        (injectAndroidModel DeviceType.MOBILE OSType.ANDROID BrowserFamily.CHROME
          (some "Pixel 7") "Linux; Android 13" 120) "120.0.0.0" "120" = .ok ua →
      ∃ p q, ua = p ++ "Pixel 7" ++ q) ∧
    chModelValue DeviceType.MOBILE (some "Pixel 7") = "Pixel 7" ∧
    (∀ fv (ld : DataLoaderT), (∀ m, ld.chromium_by_major m = []) →
      BrowserFamily.CHROME ≠ BrowserFamily.CHROME →
      ClientHintsGenerator.get_major_chromium_full_version BrowserFamily.CHROME
        fv ld = .ok (-1)) :=
  android_freeze_policy BrowserFamily.CHROME "Pixel 7" "Linux; Android 13" 120
    "120.0.0.0" "120" (by decide) (by decide)

end UAForge
